import Mathlib

/-!
Verification of the orchestration core of `cluster-deployment-automation`
against its natural-language specification.

Each definition below is a shallow embedding of a function from the
repository's Python sources (`host.py`, `clusterDeployer.py`,
`dhcpConfig.py`).  Machine time is modelled as a natural number of
seconds, external collaborators as explicit environments or traces of
emitted actions, and loops as fuel-indexed recursions returning
`Option`/a `running` marker when the fuel runs out (the real loops are
unbounded or wall-clock bounded).
-/

namespace Cda

/-! ## `host.py`: `Host.ssh_connect_looped`

A login strategy is modelled by the outcome its `login()` call produces
at a given time (seconds since the loop started): it either succeeds,
raises one of the recoverable network/authentication exceptions caught
by the loop, or raises an unexpected exception that the loop re-raises.
-/

inductive Outcome where
  | success
  | recoverable
  | fatal
deriving DecidableEq, Repr

/-- Result of `ssh_connect_looped`: successful login with the index of the
winning strategy, the `RuntimeError` for an empty strategy list, the
terminal `ConnectionError` after the timeout, or an unexpected exception
re-raised from strategy `i`. -/
inductive ConnectResult where
  | connected (i : Nat)
  | errRuntime
  | errConnection
  | errFatal (i : Nat)
deriving DecidableEq, Repr

/-- The `for login in logins` body of `ssh_connect_looped`: try each
strategy in order starting at index `idx` and time `t`; a recoverable
failure sleeps 10 seconds (`time.sleep(10)`) and moves to the next
strategy; success or an unexpected exception leaves the loop at once.
Returns the decision (if any) and the time after the pass. -/
def tryLogins (logins : List (Nat → Outcome)) (idx t : Nat) :
    Option ConnectResult × Nat :=
  match logins with
  | [] => (none, t)
  | l :: rest =>
    match l t with
    | .success => (some (.connected idx), t)
    | .fatal => (some (.errFatal idx), t)
    | .recoverable => tryLogins rest (idx + 1) (t + 10)

/-- The `while time.monotonic() < end_time` loop of `ssh_connect_looped`.
`fuel` bounds the number of passes; every pass with a nonempty strategy
list advances the clock by at least 10 seconds, so `timeout + 1` passes
always suffice (`ssh_connect_looped_fuel_sufficient`). -/
def connectLoopF (logins : List (Nat → Outcome)) (endTime t fuel : Nat) :
    Option ConnectResult :=
  match fuel with
  | 0 => none
  | fuel + 1 =>
    if t < endTime then
      match tryLogins logins 0 t with
      | (some r, _) => some r
      | (none, t') => connectLoopF logins endTime t' fuel
    else
      some .errConnection

/-- Model of `Host.ssh_connect_looped(logins, timeout=3600)`: raise `RuntimeError`
on an empty strategy list, otherwise run the timed retry loop. -/
def ssh_connect_looped (logins : List (Nat → Outcome)) (timeout : Nat := 3600) :
    Option ConnectResult :=
  if logins.isEmpty then some .errRuntime
  else connectLoopF logins timeout 0 (timeout + 1)

/-- Modelled from the spec's words (claim C1): "on a recoverable
network/authentication error, ... sleep a fixed backoff (10s), then
restart the attempt sequence from the first strategy".  One pass under
that reading: the first strategy attempted decides — success and
unexpected exceptions end the loop, a recoverable error restarts the
whole sequence after the 10 second sleep. -/
def specPass (logins : List (Nat → Outcome)) (idx t : Nat) :
    Option ConnectResult × Nat :=
  match logins with
  | [] => (none, t)
  | l :: _ =>
    match l t with
    | .success => (some (.connected idx), t)
    | .fatal => (some (.errFatal idx), t)
    | .recoverable => (none, t + 10)

/-- Modelled from the spec's words (claim C1): the outer retry loop with
restart-from-the-first-strategy semantics. -/
def specConnectLoopF (logins : List (Nat → Outcome)) (endTime t fuel : Nat) :
    Option ConnectResult :=
  match fuel with
  | 0 => none
  | fuel + 1 =>
    if t < endTime then
      match specPass logins 0 t with
      | (some r, _) => some r
      | (none, t') => specConnectLoopF logins endTime t' fuel
    else
      some .errConnection

/-- Modelled from the spec's words (claim C1): `ssh_connect_looped` as the
claim describes it, restarting from the first strategy after every
recoverable failure. -/
def ssh_connect_looped_claimed (logins : List (Nat → Outcome))
    (timeout : Nat := 3600) : Option ConnectResult :=
  if logins.isEmpty then some .errRuntime
  else specConnectLoopF logins timeout 0 (timeout + 1)

/-- One-step unfolding of the connect retry loop. -/
theorem connectLoopF_succ (logins : List (Nat → Outcome)) (endTime t fuel : Nat) :
    connectLoopF logins endTime t (fuel + 1) =
      if t < endTime then
        match tryLogins logins 0 t with
        | (some r, _) => some r
        | (none, t') => connectLoopF logins endTime t' fuel
      else some .errConnection := rfl

/-- Decision of a single in-order pass over constant strategy outcomes:
the first non-recoverable strategy decides; if every strategy fails
recoverably the pass is inconclusive (eventually `ConnectionError`). -/
def firstDecision : List Outcome → Nat → ConnectResult
  | [], _ => .errConnection
  | o :: rest, idx =>
    match o with
    | .success => .connected idx
    | .fatal => .errFatal idx
    | .recoverable => firstDecision rest (idx + 1)

/-- A pass over constant strategy outcomes is decided by the first
non-recoverable outcome (or inconclusive when all are recoverable). -/
theorem tryLogins_const_fst (outs : List Outcome) (idx t : Nat) :
    (tryLogins (outs.map fun o _ => o) idx t).1 =
      if outs.all (· == .recoverable) = true then none
      else some (firstDecision outs idx) := by
  induction outs generalizing idx t with
  | nil => simp [tryLogins]
  | cons o rest ih =>
    cases o <;> simp [tryLogins, firstDecision, ih]

/-- A pass in which every strategy fails recoverably sleeps 10 seconds
per strategy. -/
theorem tryLogins_const_snd (outs : List Outcome) (idx t : Nat)
    (h : outs.all (· == .recoverable) = true) :
    (tryLogins (outs.map fun o _ => o) idx t).2 = t + 10 * outs.length := by
  induction outs generalizing idx t with
  | nil => simp [tryLogins]
  | cons o rest ih =>
    rw [List.all_cons, Bool.and_eq_true] at h
    obtain ⟨ho, hrest⟩ := h
    cases o with
    | recoverable =>
      simp only [List.map_cons, tryLogins, List.length_cons]
      rw [ih _ _ hrest]
      ring
    | success => simp at ho
    | fatal => simp at ho

theorem firstDecision_all_recoverable (outs : List Outcome) (idx : Nat)
    (h : outs.all (· == .recoverable) = true) :
    firstDecision outs idx = .errConnection := by
  induction outs generalizing idx with
  | nil => rfl
  | cons o rest ih =>
    rw [List.all_cons, Bool.and_eq_true] at h
    obtain ⟨ho, hrest⟩ := h
    cases o with
    | recoverable => exact ih _ hrest
    | success => simp at ho
    | fatal => simp at ho

/-- With all-recoverable constant outcomes, the retry loop reaches the
timeout and reports the terminal `ConnectionError`. -/
theorem connectLoopF_all_recoverable (outs : List Outcome)
    (h : outs.all (· == .recoverable) = true) (hne : outs ≠ [])
    (endTime : Nat) :
    ∀ f t, endTime ≤ t + 10 * f →
      connectLoopF (outs.map fun o _ => o) endTime t (f + 1) =
        some .errConnection := by
  intro f
  induction f with
  | zero =>
    intro t ht
    simp only [connectLoopF]
    rw [if_neg (by omega)]
  | succ f ih =>
    intro t ht
    by_cases hlt : t < endTime
    · rw [connectLoopF_succ, if_pos hlt]
      have hlen : 1 ≤ outs.length := List.length_pos.mpr hne
      have h1 := tryLogins_const_fst outs 0 t
      have h2 := tryLogins_const_snd outs 0 t h
      rw [if_pos h] at h1
      rcases heq : tryLogins (outs.map fun o _ => o) 0 t with ⟨r, t'⟩
      rw [heq] at h1 h2
      obtain rfl : r = none := h1
      obtain rfl : t' = t + 10 * outs.length := h2
      exact ih (t + 10 * outs.length) (by omega)
    · rw [connectLoopF_succ, if_neg hlt]

/-- **C1** (amended).  `Host.ssh_connect_looped` with a non-empty strategy
list of constant outcomes: after a recoverable network/authentication
failure the loop sleeps 10 seconds and proceeds to the *next* strategy
(restarting from the first only once the whole list is exhausted), so
the first non-recoverable strategy decides the call — success connects,
an unexpected exception propagates immediately, and if every strategy
keeps failing recoverably the loop raises the terminal `ConnectionError`
once the overall timeout elapses. -/
theorem ssh_connect_looped_const_decision (outs : List Outcome) (timeout : Nat)
    (h1 : outs ≠ []) (h2 : 0 < timeout) :
    ssh_connect_looped (outs.map fun o _ => o) timeout =
      some (firstDecision outs 0) := by
  unfold ssh_connect_looped
  rw [if_neg (by simpa using h1)]
  by_cases hall : outs.all (· == .recoverable) = true
  · rw [firstDecision_all_recoverable outs 0 hall]
    rcases Nat.exists_eq_add_of_lt h2 with ⟨f, hf⟩
    exact connectLoopF_all_recoverable outs hall h1 timeout timeout 0 (by omega)
  · have h1' := tryLogins_const_fst outs 0 0
    rw [if_neg hall] at h1'
    rcases ht : timeout with _ | t0
    · omega
    · rw [connectLoopF_succ, if_pos (by omega)]
      rcases heq : tryLogins (outs.map fun o _ => o) 0 0 with ⟨r, t'⟩
      rw [heq] at h1'
      obtain rfl : r = some (firstDecision outs 0) := h1'
      rfl

/-- **C1** (witness).  Concrete instance: strategies `[recoverable, fatal]`
with a 5 second timeout — the unexpected exception of the second strategy
propagates out of the very first pass. -/
theorem ssh_connect_looped_const_decision_witness :
    ([Outcome.recoverable, Outcome.fatal] ≠ [] ∧ 0 < 5) ∧
      ssh_connect_looped ([Outcome.recoverable, Outcome.fatal].map fun o _ => o) 5 =
        some (firstDecision [Outcome.recoverable, Outcome.fatal] 0) :=
  ⟨⟨by decide, by decide⟩,
    ssh_connect_looped_const_decision [Outcome.recoverable, Outcome.fatal] 5
      (by decide) (by decide)⟩

/-- Strategy list for the C1 counterexample: the first strategy always
fails with a recoverable error, the second always succeeds. -/
def c1Logins : List (Nat → Outcome) :=
  [fun _ => Outcome.recoverable, fun _ => Outcome.success]

set_option maxRecDepth 8000

/-- **C1** (counterexample).  Against the claim's restart-from-the-first
semantics, the code moves on to the *next* strategy after the 10 second
sleep: with a first strategy that always fails recoverably and a second
that succeeds, `ssh_connect_looped` connects via strategy 1, while the
claimed behaviour (modelled from the spec's words) would retry strategy 0
until the 3600 second timeout and raise the terminal `ConnectionError`. -/
theorem ssh_connect_looped_restart_counterexample :
    ssh_connect_looped c1Logins 3600 = some (.connected 1) ∧
      ssh_connect_looped_claimed c1Logins 3600 = some .errConnection ∧
      (some (ConnectResult.connected 1) ≠ some ConnectResult.errConnection) := by
  refine ⟨by decide, by decide, by decide⟩

/-! ## `host.py`: `Host.ssh_run_poll_result`

The paramiko channel shared by the two `ChannelFile`s is modelled by an
environment: `outArr t` / `errArr t` are the byte chunks that become
available on stdout / stderr during loop iteration `t` (the inner
`while channel.recv_ready()` drain collapses them into one list), and
`channel.exit_status_ready()` holds from iteration `exitReadyAt` on.
Bytes are `Nat`, per-stream progress is the code's `state` value
(0 = open, 1 = exit status seen, 2 = closed). -/

structure PollEnv where
  outArr : Nat → List Nat
  errArr : Nat → List Nat
  exitReadyAt : Nat
  exitCode : Int

/-- The mutable locals of `ssh_run_poll_result`: iteration counter,
per-stream `state`, accumulated `datas`, and `returncode` (initially
`-1`). -/
structure PollState where
  t : Nat
  state0 : Nat
  state1 : Nat
  data0 : List Nat
  data1 : List Nat
  returncode : Int
deriving DecidableEq, Repr

/-- Captured command output: `out`/`err` bytes and the exit status. -/
structure RunResultB where
  out : List Nat
  err : List Nat
  returncode : Int
deriving DecidableEq, Repr

/-- The `for i in (0, 1)` body for one stream: skip when closed,
otherwise drain all currently available data, then either finish the
close started last iteration (`state == 1`) or record that the exit
status became ready. -/
def streamStep (avail : List Nat) (exitReady : Bool) (st : Nat)
    (data : List Nat) : Nat × List Nat :=
  if st = 2 then (st, data)
  else
    let data := data ++ avail
    if st = 1 then (2, data)
    else if exitReady then (1, data)
    else (0, data)

/-- One iteration of the `while` loop of `ssh_run_poll_result`,
processing stdout (stream 0, which also fetches `recv_exit_status()`
when it closes) and then stderr (stream 1). -/
def pollStep (env : PollEnv) (s : PollState) : PollState :=
  let exitReady := decide (env.exitReadyAt ≤ s.t)
  let r0 := streamStep (env.outArr s.t) exitReady s.state0 s.data0
  let rc := if s.state0 = 1 then env.exitCode else s.returncode
  let r1 := streamStep (env.errArr s.t) exitReady s.state1 s.data1
  { t := s.t + 1, state0 := r0.1, state1 := r1.1,
    data0 := r0.2, data1 := r1.2, returncode := rc }

/-- The `while state[0] != 2 and state[1] != 2` loop; `none` when the
fuel runs out before the loop finishes. -/
def pollLoop (env : PollEnv) (s : PollState) (fuel : Nat) :
    Option RunResultB :=
  match fuel with
  | 0 => none
  | fuel + 1 =>
    if s.state0 ≠ 2 ∧ s.state1 ≠ 2 then pollLoop env (pollStep env s) fuel
    else some ⟨s.data0, s.data1, s.returncode⟩

/-- Initial locals: iteration 0, both streams open, no data,
`returncode = -1`. -/
def pollInit : PollState := ⟨0, 0, 0, [], [], -1⟩

/-- Model of `Host.ssh_run_poll_result`: the loop needs exactly
`exitReadyAt + 2` iterations plus the final loop-condition check, so
`exitReadyAt + 3` fuel always suffices. -/
def ssh_run_poll_result (env : PollEnv) : Option RunResultB :=
  pollLoop env pollInit (env.exitReadyAt + 3)

/-- Concatenation of every chunk a stream delivered before iteration
`n`. -/
def bytesUpTo (f : Nat → List Nat) : Nat → List Nat
  | 0 => []
  | n + 1 => bytesUpTo f n ++ f n

/-- One-step unfolding of the poll loop. -/
theorem pollLoop_succ (env : PollEnv) (s : PollState) (fuel : Nat) :
    pollLoop env s (fuel + 1) =
      if s.state0 ≠ 2 ∧ s.state1 ≠ 2 then pollLoop env (pollStep env s) fuel
      else some ⟨s.data0, s.data1, s.returncode⟩ := rfl

/-- Both streams open and the exit status not yet ready: the iteration
only drains the freshly available data. -/
theorem pollStep_pre (env : PollEnv) (k : Nat) (hk : k < env.exitReadyAt)
    (b e : List Nat) (rc : Int) :
    pollStep env ⟨k, 0, 0, b, e, rc⟩ =
      ⟨k + 1, 0, 0, b ++ env.outArr k, e ++ env.errArr k, rc⟩ := by
  simp [pollStep, streamStep, Nat.not_le.mpr hk]

/-- Both streams open and the exit status ready: drain, then mark both
streams for one final receive round. -/
theorem pollStep_ready (env : PollEnv) (k : Nat) (hk : env.exitReadyAt ≤ k)
    (b e : List Nat) (rc : Int) :
    pollStep env ⟨k, 0, 0, b, e, rc⟩ =
      ⟨k + 1, 1, 1, b ++ env.outArr k, e ++ env.errArr k, rc⟩ := by
  simp [pollStep, streamStep, hk]

/-- Final round after the exit status was seen: one last drain, close
both streams and fetch the exit status. -/
theorem pollStep_close (env : PollEnv) (k : Nat) (b e : List Nat) (rc : Int) :
    pollStep env ⟨k, 1, 1, b, e, rc⟩ =
      ⟨k + 1, 2, 2, b ++ env.outArr k, e ++ env.errArr k, env.exitCode⟩ := by
  simp [pollStep, streamStep]

/-- Running the loop from iteration `k` (both streams open, data
collected so far) down to iteration `exitReadyAt`. -/
theorem pollLoop_advance (env : PollEnv) :
    ∀ d fuel k, k + d = env.exitReadyAt →
      pollLoop env ⟨k, 0, 0, bytesUpTo env.outArr k, bytesUpTo env.errArr k, -1⟩
          (d + fuel) =
        pollLoop env
          ⟨env.exitReadyAt, 0, 0, bytesUpTo env.outArr env.exitReadyAt,
            bytesUpTo env.errArr env.exitReadyAt, -1⟩ fuel := by
  intro d
  induction d with
  | zero =>
    intro fuel k hk
    simp only [Nat.add_zero] at hk
    subst hk
    simp
  | succ d ih =>
    intro fuel k hk
    have hklt : k < env.exitReadyAt := by omega
    rw [show d + 1 + fuel = (d + fuel) + 1 by omega, pollLoop_succ,
      if_pos (by simp), pollStep_pre env k hklt]
    exact ih fuel (k + 1) (by omega)

/-- **C3**.  `Host.ssh_run_poll_result` (a) never returns before both
streams have been closed and the exit status fetched — with fuel for at
most `exitReadyAt + 2` loop iterations it is still running — and
(b) once it returns, the result carries the exit status and, for any
horizon `N` covering every delivery (chunks stop by `exitReadyAt + 2`),
the full concatenation of all bytes each stream ever delivered, no
matter how the chunks were interleaved. -/
theorem ssh_run_poll_result_complete (env : PollEnv)
    (hquiet : ∀ t, env.exitReadyAt + 2 ≤ t →
      env.outArr t = [] ∧ env.errArr t = []) :
    (∀ N, env.exitReadyAt + 2 ≤ N →
        ssh_run_poll_result env =
          some ⟨bytesUpTo env.outArr N, bytesUpTo env.errArr N, env.exitCode⟩) ∧
      (∀ fuel, fuel ≤ env.exitReadyAt + 2 → pollLoop env pollInit fuel = none) := by
  have hstable : ∀ N, env.exitReadyAt + 2 ≤ N →
      bytesUpTo env.outArr N = bytesUpTo env.outArr (env.exitReadyAt + 2) ∧
        bytesUpTo env.errArr N = bytesUpTo env.errArr (env.exitReadyAt + 2) := by
    intro N hN
    induction N with
    | zero => omega
    | succ N ihN =>
      rcases Nat.lt_or_ge (env.exitReadyAt + 2) (N + 1) with hlt | hge
      · have hN' : env.exitReadyAt + 2 ≤ N := by omega
        rcases ihN hN' with ⟨h1, h2⟩
        rcases hquiet N hN' with ⟨q1, q2⟩
        constructor
        · rw [bytesUpTo, q1, List.append_nil, h1]
        · rw [bytesUpTo, q2, List.append_nil, h2]
      · have : N + 1 = env.exitReadyAt + 2 := by omega
        rw [this]
        exact ⟨rfl, rfl⟩
  constructor
  · intro N hN
    rcases hstable N hN with ⟨h1, h2⟩
    rw [h1, h2]
    unfold ssh_run_poll_result
    have hinit : pollInit =
        (⟨0, 0, 0, bytesUpTo env.outArr 0, bytesUpTo env.errArr 0, -1⟩ :
          PollState) := rfl
    rw [hinit]
    have := pollLoop_advance env env.exitReadyAt 3 0 (by omega)
    calc pollLoop env
          ⟨0, 0, 0, bytesUpTo env.outArr 0, bytesUpTo env.errArr 0, -1⟩
          (env.exitReadyAt + 3)
        = pollLoop env
            ⟨env.exitReadyAt, 0, 0, bytesUpTo env.outArr env.exitReadyAt,
              bytesUpTo env.errArr env.exitReadyAt, -1⟩ 3 := this
      _ = some ⟨bytesUpTo env.outArr (env.exitReadyAt + 2),
            bytesUpTo env.errArr (env.exitReadyAt + 2), env.exitCode⟩ := by
          rw [pollLoop_succ, if_pos (by simp),
            pollStep_ready env env.exitReadyAt (le_refl _)]
          rw [pollLoop_succ, if_pos (by simp),
            pollStep_close env (env.exitReadyAt + 1)]
          rw [pollLoop_succ, if_neg (by simp)]
          rfl
  · have hmid : ∀ fuel k b e rc,
        fuel ≤ 1 →
          pollLoop env (⟨k, 1, 1, b, e, rc⟩ : PollState) fuel = none := by
      intro fuel k b e rc hfuel
      interval_cases fuel
      · rfl
      · rw [pollLoop_succ, if_pos (by simp), pollStep_close]
        rfl
    have hmain : ∀ fuel k b e,
        k ≤ env.exitReadyAt → fuel + k ≤ env.exitReadyAt + 2 →
          pollLoop env (⟨k, 0, 0, b, e, -1⟩ : PollState) fuel = none := by
      intro fuel
      induction fuel with
      | zero => intro k b e _ _; rfl
      | succ fuel ih =>
        intro k b e hk hfk
        rw [pollLoop_succ, if_pos (by simp)]
        rcases Nat.lt_or_ge k env.exitReadyAt with hlt | hge
        · rw [pollStep_pre env k hlt]
          exact ih (k + 1) _ _ (by omega) (by omega)
        · have hkeq : k = env.exitReadyAt := by omega
          rw [pollStep_ready env k (by omega)]
          exact hmid fuel (k + 1) _ _ _ (by omega)
    intro fuel hfuel
    exact hmain fuel 0 [] [] (by omega) (by omega)

/-- Delivery schedule of the C3 witness: stdout chunks at iterations 0
and 3 (after the exit status is ready at 2), stderr chunk at 1. -/
def exPollEnv : PollEnv where
  outArr t := if t = 0 then [1, 2] else if t = 3 then [7] else []
  errArr t := if t = 1 then [9] else []
  exitReadyAt := 2
  exitCode := 5

/-- **C3** (witness).  The concrete schedule `exPollEnv` satisfies the
quiescence hypothesis and the capture returns all interleaved chunks of
both streams together with the exit status. -/
theorem ssh_run_poll_result_complete_witness :
    (∀ t, exPollEnv.exitReadyAt + 2 ≤ t →
        exPollEnv.outArr t = [] ∧ exPollEnv.errArr t = []) ∧
      ssh_run_poll_result exPollEnv =
        some ⟨bytesUpTo exPollEnv.outArr 4, bytesUpTo exPollEnv.errArr 4,
          exPollEnv.exitCode⟩ := by
  have hq : ∀ t, exPollEnv.exitReadyAt + 2 ≤ t →
      exPollEnv.outArr t = [] ∧ exPollEnv.errArr t = [] := by
    intro t ht
    have ht' : 4 ≤ t := ht
    constructor
    · show (if t = 0 then [1, 2] else if t = 3 then [7] else []) = []
      rw [if_neg (by omega), if_neg (by omega)]
    · show (if t = 1 then [9] else []) = []
      rw [if_neg (by omega)]
  exact ⟨hq, (ssh_run_poll_result_complete exPollEnv hq).1 4 (by decide)⟩

/-! ## `host.py`: `Host.__new__` / `Host.__init__` (the endpoint cache)

`host_instances` is the process-wide dictionary keyed by
`(cls, hostname)`.  Python evaluates `Host(h)` as `__new__` (which
returns the cached object when present) followed by `__init__` *on every
call*.  Objects live in a heap indexed by object id; `_logins`,
`sudo_needed` and the `_host` session attribute are the mutable fields
claim C4 is about (logins and sessions are abstracted to ids). -/

structure HostObj where
  hostname : String
  logins : List Nat
  sudo_needed : Bool
  session : Option Nat
deriving DecidableEq, Repr

structure HostState where
  instances : List ((String × String) × Nat)
  heap : Nat → HostObj
  nextId : Nat

/-- A freshly allocated Python object, before `__init__` ran. -/
def emptyHostObj : HostObj := ⟨"", [], false, none⟩

def initialHostState : HostState := ⟨[], fun _ => emptyHostObj, 0⟩

/-- The `host_instances` lookup for `key = (cls, hostname)`. -/
def lookupInstance (s : HostState) (key : String × String) : Option Nat :=
  (s.instances.find? fun p => p.1 = key).map (·.2)

/-- Model of `Host.__new__`: return the cached object for `(cls, hostname)`, or
allocate a fresh one and register it in `host_instances`. -/
def Host_new (cls hostname : String) (s : HostState) : Nat × HostState :=
  match lookupInstance s (cls, hostname) with
  | some oid => (oid, s)
  | none =>
    (s.nextId,
      { s with
        instances := s.instances ++ [((cls, hostname), s.nextId)],
        nextId := s.nextId + 1 })

/-- Model of `Host.__init__`: sets `_hostname`, `_logins = []` and
`sudo_needed = False` on the object — it does not touch `_host`. -/
def Host_init (oid : Nat) (hostname : String) (s : HostState) : HostState :=
  { s with
    heap := fun i =>
      if i = oid then
        { s.heap oid with hostname := hostname, logins := [], sudo_needed := false }
      else s.heap i }

/-- Model of `Host(hostname)`: `__new__` then — unconditionally — `__init__`. -/
def Host_call (cls hostname : String) (s : HostState) : Nat × HostState :=
  let r := Host_new cls hostname s
  (r.1, Host_init r.1 hostname r.2)

/-- Model of `ssh_connect` storing the built strategy list in `self._logins`. -/
def setLogins (oid : Nat) (ls : List Nat) (s : HostState) : HostState :=
  { s with
    heap := fun i => if i = oid then { s.heap oid with logins := ls } else s.heap i }

/-- Model of `ssh_connect_looped` storing the open session in `self._host`. -/
def setSession (oid : Nat) (sess : Nat) (s : HostState) : HostState :=
  { s with
    heap := fun i => if i = oid then { s.heap oid with session := some sess } else s.heap i }

/-- First lookup of host `"h"` from a fresh process. -/
def c4Lookup1 : Nat × HostState := Host_call "Host" "h" initialHostState

/-- The connected endpoint: session 7 open, two login strategies cached. -/
def c4Connected : HostState :=
  setLogins c4Lookup1.1 [1, 2] (setSession c4Lookup1.1 7 c4Lookup1.2)

/-- Second lookup of the same host. -/
def c4Lookup2 : Nat × HostState := Host_call "Host" "h" c4Connected

/-- **C4** (counterexample).  The second `Host("h")` returns the identical
object, but because Python re-runs `__init__` on it, the stored login
strategies `[1, 2]` have been reset to `[]` — they are *not* preserved
across lookups as the claim states. -/
theorem host_lookup_resets_logins_counterexample :
    c4Lookup2.1 = c4Lookup1.1 ∧
      (c4Connected.heap c4Lookup1.1).logins = [1, 2] ∧
      (c4Lookup2.2.heap c4Lookup2.1).logins = [] ∧
      ([] : List Nat) ≠ [1, 2] := by
  refine ⟨by decide, by decide, by decide, by decide⟩

/-- Running `__init__` only rewrites the heap, never the instance registry. -/
theorem lookupInstance_init (oid : Nat) (hostname : String) (s : HostState)
    (key : String × String) :
    lookupInstance (Host_init oid hostname s) key = lookupInstance s key := rfl

theorem find?_append_of_none {α : Type} (l₁ l₂ : List α) (p : α → Bool)
    (h : l₁.find? p = none) : (l₁ ++ l₂).find? p = l₂.find? p := by
  induction l₁ with
  | nil => rfl
  | cons a l ih =>
    cases hp : p a with
    | true =>
      rw [List.find?_cons_of_pos _ hp] at h
      exact Option.noConfusion h
    | false =>
      have hp' : ¬p a = true := by simp [hp]
      rw [List.find?_cons_of_neg _ hp'] at h
      rw [List.cons_append, List.find?_cons_of_neg _ hp']
      exact ih h

/-- After any `Host(hostname)` call, the registry maps its key to the
returned object id. -/
theorem lookupInstance_after_call (cls hostname : String) (s : HostState) :
    lookupInstance (Host_call cls hostname s).2 (cls, hostname) =
      some (Host_call cls hostname s).1 := by
  unfold Host_call
  rcases hl : lookupInstance s (cls, hostname) with _ | oid
  · have hnone : (s.instances.find? fun p => p.1 = (cls, hostname)) = none := by
      unfold lookupInstance at hl
      rcases hfind : s.instances.find? fun p => p.1 = (cls, hostname) with _ | v
      · exact hfind
      · rw [hfind] at hl
        exact Option.noConfusion hl
    simp only [Host_new, hl]
    unfold lookupInstance Host_init
    dsimp only
    rw [find?_append_of_none _ _ _ hnone]
    simp [List.find?]
  · simp only [Host_new, hl]
    unfold lookupInstance Host_init
    dsimp only
    unfold lookupInstance at hl
    exact hl

/-- **C4** (amended).  The process-wide cache guarantees that repeated
`Host(hostname)` lookups return the identical object (one object per
`(class, hostname)` key), and the `_host` session attribute survives a
repeated lookup — but Python re-runs `__init__` on the cached object, so
each lookup *reinitializes* the stored login strategies to `[]` and the
sudo flag to `False` rather than preserving them. -/
theorem host_call_cached_but_reinitialized (cls hostname : String)
    (s : HostState) :
    (Host_call cls hostname (Host_call cls hostname s).2).1 =
        (Host_call cls hostname s).1 ∧
      ((Host_call cls hostname (Host_call cls hostname s).2).2.heap
            (Host_call cls hostname s).1).session =
        ((Host_call cls hostname s).2.heap (Host_call cls hostname s).1).session ∧
      ((Host_call cls hostname s).2.heap (Host_call cls hostname s).1).logins = [] ∧
      ((Host_call cls hostname s).2.heap
          (Host_call cls hostname s).1).sudo_needed = false := by
  have hreg := lookupInstance_after_call cls hostname s
  have hsame : (Host_call cls hostname (Host_call cls hostname s).2).1 =
      (Host_call cls hostname s).1 := by
    conv_lhs => rw [Host_call, Host_new, hreg]
  refine ⟨hsame, ?_, ?_, ?_⟩
  · conv_lhs => rw [Host_call, Host_new, hreg]
    simp [Host_init]
  · rw [Host_call]
    simp [Host_init]
  · rw [Host_call]
    simp [Host_init]

/-! ## `clusterDeployer.py`: `ClusterDeployer._wait_known_state`

The backend status lookup `self._get_status` is an environment
`get : round → name → Optional[str]`; `hasLogs n` models
`self._all_nodes.get(n) is not None`.  The loop's observable behaviour
is the outcome together with the trace of emitted events. -/

inductive WaitEvent where
  | logStatus (snapshot : List (String × Option String))
  | printLogs (name : String)
  | cbCall
  | sleep5
deriving DecidableEq, Repr

/-- Outcome `ok` = the loop returned, `fatalExit` = `logger.error_and_exit`,
`running` = fuel exhausted while the real loop would still poll. -/
inductive WaitOutcome where
  | ok
  | fatalExit
  | running
deriving DecidableEq, Repr

/-- The snapshot dict of `_get_status` values at poll round `round`. -/
def pollNames (get : Nat → String → Option String) (round : Nat)
    (names : List String) : List (String × Option String) :=
  names.map fun n => (n, get round n)

/-- The `while not all(v == "known" ...)` loop of `_wait_known_state`:
poll, log the snapshot only when it changed, abort fatally (after
dumping logs of every node that has them) when any status is `"error"`,
otherwise run the callback and sleep 5 seconds before the next round. -/
def waitLoop (get : Nat → String → Option String) (names : List String)
    (hasLogs : String → Bool) (status : List (String × Option String))
    (round fuel : Nat) (events : List WaitEvent) :
    WaitOutcome × List WaitEvent :=
  match fuel with
  | 0 => (.running, events)
  | fuel + 1 =>
    if status.all fun p => decide (p.2 = some "known") then (.ok, events)
    else if pollNames get round names ≠ status then
      if (pollNames get round names).any fun p => decide (p.2 = some "error") then
        (.fatalExit, events ++ [.logStatus (pollNames get round names)] ++
          (names.filter hasLogs).map .printLogs)
      else
        waitLoop get names hasLogs (pollNames get round names) (round + 1) fuel
          (events ++ [.logStatus (pollNames get round names)] ++ [.cbCall, .sleep5])
    else
      if status.any fun p => decide (p.2 = some "error") then
        (.fatalExit, events ++ (names.filter hasLogs).map .printLogs)
      else
        waitLoop get names hasLogs status (round + 1) fuel
          (events ++ [.cbCall, .sleep5])

/-- Model of `_wait_known_state(names)`: every status starts as the empty string
(`dict.fromkeys(names, "")`). -/
def wait_known_state (get : Nat → String → Option String) (names : List String)
    (hasLogs : String → Bool) (fuel : Nat) : WaitOutcome × List WaitEvent :=
  waitLoop get names hasLogs (names.map fun n => (n, some "")) 0 fuel []

/-- One-step unfolding of the known-state loop. -/
theorem waitLoop_succ (get : Nat → String → Option String) (names : List String)
    (hasLogs : String → Bool) (status : List (String × Option String))
    (round fuel : Nat) (events : List WaitEvent) :
    waitLoop get names hasLogs status round (fuel + 1) events =
      if status.all fun p => decide (p.2 = some "known") then (.ok, events)
      else if pollNames get round names ≠ status then
        if (pollNames get round names).any fun p => decide (p.2 = some "error") then
          (.fatalExit, events ++ [.logStatus (pollNames get round names)] ++
            (names.filter hasLogs).map .printLogs)
        else
          waitLoop get names hasLogs (pollNames get round names) (round + 1) fuel
            (events ++ [.logStatus (pollNames get round names)] ++ [.cbCall, .sleep5])
      else
        if status.any fun p => decide (p.2 = some "error") then
          (.fatalExit, events ++ (names.filter hasLogs).map .printLogs)
        else
          waitLoop get names hasLogs status (round + 1) fuel
            (events ++ [.cbCall, .sleep5]) := rfl

/-- Recognizer for snapshot-log events. -/
def isLogStatus : WaitEvent → Bool
  | .logStatus _ => true
  | _ => false

/-- Two status snapshots over the same name list differ as soon as one
name's status differs. -/
theorem map_pair_ne (f g : String → Option String) (n : String) :
    ∀ names : List String, n ∈ names → f n ≠ g n →
      (names.map fun x => (x, f x)) ≠ names.map fun x => (x, g x) := by
  intro names
  induction names with
  | nil => intro hn; cases hn
  | cons a l ih =>
    intro hn hne h
    rw [List.map_cons, List.map_cons] at h
    injection h with h1 h2
    rcases List.mem_cons.mp hn with rfl | hmem
    · injection h1 with _ hfa
      exact hne hfa
    · exact ih hmem hne h2

/-- The initial all-empty-string snapshot of a nonempty name list is not
all-`"known"`. -/
theorem init_not_all_known (names : List String) (hne : names ≠ []) :
    ¬(((names.map fun x => (x, (some "" : Option String))).all
        fun p => decide (p.2 = some "known")) = true) := by
  intro h
  obtain ⟨n, hn⟩ := List.exists_mem_of_ne_nil names hne
  have := List.all_eq_true.mp h (n, some "") (List.mem_map_of_mem _ hn)
  simp at this

/-- **C2**.  `_wait_known_state` over a constant backend status `f`:
(1) when every node reports `"known"` the poll returns normally after a
single snapshot log, callback and 5-second sleep; (2) when any node
reports `"error"` the very first poll aborts fatally — without waiting
for the other nodes to change — after logging the snapshot and dumping
diagnostics for exactly the nodes that have logs; (3) while some node is
not `"known"` the poll never returns normally; (4) with an unchanged
(non-error, not-all-known) status the snapshot is logged exactly once,
no matter how many 5-second rounds run. -/
theorem wait_known_state_spec (f : String → Option String)
    (names : List String) (hasLogs : String → Bool) :
    (names ≠ [] → (∀ n ∈ names, f n = some "known") → ∀ fuel, 2 ≤ fuel →
        wait_known_state (fun _ n => f n) names hasLogs fuel =
          (.ok, [.logStatus (names.map fun n => (n, f n)), .cbCall, .sleep5])) ∧
      ((∃ n ∈ names, f n = some "error") → ∀ fuel, 1 ≤ fuel →
        wait_known_state (fun _ n => f n) names hasLogs fuel =
          (.fatalExit, .logStatus (names.map fun n => (n, f n)) ::
            (names.filter hasLogs).map .printLogs)) ∧
      ((∃ n ∈ names, f n ≠ some "known") → ∀ fuel,
        (wait_known_state (fun _ n => f n) names hasLogs fuel).1 ≠ .ok) ∧
      ((∃ n ∈ names, f n ≠ some "known") → (∀ n ∈ names, f n ≠ some "error") →
        (∃ n ∈ names, f n ≠ some "") → ∀ fuel, 1 ≤ fuel →
        ((wait_known_state (fun _ n => f n) names hasLogs fuel).2.filter
            isLogStatus) =
          [.logStatus (names.map fun n => (n, f n))]) := by
  have hsettle : ∀ fuel round events,
      (∀ n ∈ names, f n ≠ some "error") → (∃ n ∈ names, f n ≠ some "known") →
        ((waitLoop (fun _ x => f x) names hasLogs
            (names.map fun x => (x, f x)) round fuel events).2.filter
          isLogStatus) = events.filter isLogStatus := by
    intro fuel
    induction fuel with
    | zero => intro round events _ _; rfl
    | succ fuel ih =>
      intro round events herr hnk
      obtain ⟨n, hn, hnkn⟩ := hnk
      rw [waitLoop_succ]
      rw [if_neg (fun h => hnkn (by
        simpa using List.all_eq_true.mp h (n, f n) (List.mem_map_of_mem _ hn)))]
      rw [if_neg (show ¬(pollNames (fun _ x => f x) round names ≠
        names.map fun x => (x, f x)) from fun h => h rfl)]
      rw [if_neg (fun h => by
        obtain ⟨p, hp, hpe⟩ := List.any_eq_true.mp h
        obtain ⟨x, hx, rfl⟩ := List.mem_map.mp hp
        exact herr x hx (by simpa using hpe))]
      rw [ih (round + 1) _ herr ⟨n, hn, hnkn⟩]
      simp [isLogStatus]
  refine ⟨?_, ?_, ?_, ?_⟩
  · intro hne hknown fuel hfuel
    obtain ⟨k, rfl⟩ : ∃ k, fuel = (k + 1) + 1 := ⟨fuel - 2, by omega⟩
    obtain ⟨n, hn⟩ := List.exists_mem_of_ne_nil names hne
    unfold wait_known_state
    rw [waitLoop_succ, if_neg (init_not_all_known names hne)]
    rw [if_pos (show pollNames (fun _ x => f x) 0 names ≠
      names.map fun x => (x, (some "" : Option String)) from
      map_pair_ne f (fun _ => some "") n names hn (by rw [hknown n hn]; simp))]
    rw [if_neg (fun h => by
      obtain ⟨p, hp, hpe⟩ := List.any_eq_true.mp h
      obtain ⟨x, hx, rfl⟩ := List.mem_map.mp hp
      have hfx : f x = some "error" := by simpa using hpe
      rw [hknown x hx] at hfx
      simp at hfx)]
    rw [waitLoop_succ, if_pos (by
      rw [List.all_eq_true]
      intro p hp
      obtain ⟨x, hx, rfl⟩ := List.mem_map.mp hp
      simp [hknown x hx])]
    simp [pollNames]
  · rintro ⟨n, hn, herr⟩ fuel hfuel
    obtain ⟨k, rfl⟩ : ∃ k, fuel = k + 1 := ⟨fuel - 1, by omega⟩
    unfold wait_known_state
    rw [waitLoop_succ,
      if_neg (init_not_all_known names (List.ne_nil_of_mem hn))]
    rw [if_pos (show pollNames (fun _ x => f x) 0 names ≠
      names.map fun x => (x, (some "" : Option String)) from
      map_pair_ne f (fun _ => some "") n names hn (by rw [herr]; simp))]
    rw [if_pos (by
      rw [List.any_eq_true]
      exact ⟨(n, f n), List.mem_map_of_mem _ hn, by simp [herr]⟩)]
    simp [pollNames]
  · rintro ⟨n, hn, hnk⟩ fuel
    suffices h : ∀ fuel round events status,
        (status = (names.map fun x => (x, (some "" : Option String))) ∨
          status = names.map fun x => (x, f x)) →
        (waitLoop (fun _ x => f x) names hasLogs status round fuel
            events).1 ≠ .ok by
      exact h fuel 0 [] _ (Or.inl rfl)
    intro fuel
    induction fuel with
    | zero =>
      intro round events status _
      simp [waitLoop]
    | succ fuel ih =>
      intro round events status hst
      rw [waitLoop_succ]
      have hcond : ¬((status.all fun p => decide (p.2 = some "known")) = true) := by
        rcases hst with rfl | rfl
        · exact init_not_all_known names (List.ne_nil_of_mem hn)
        · intro h
          exact hnk (by
            simpa using List.all_eq_true.mp h (n, f n) (List.mem_map_of_mem _ hn))
      rw [if_neg hcond]
      by_cases hch : pollNames (fun _ x => f x) round names ≠ status
      · rw [if_pos hch]
        by_cases herr2 : ((pollNames (fun _ x => f x) round names).any
            fun p => decide (p.2 = some "error")) = true
        · rw [if_pos herr2]
          simp
        · rw [if_neg herr2]
          exact ih (round + 1) _ _ (Or.inr rfl)
      · rw [if_neg hch]
        by_cases herr2 : (status.any fun p => decide (p.2 = some "error")) = true
        · rw [if_pos herr2]
          simp
        · rw [if_neg herr2]
          exact ih (round + 1) _ _ hst
  · rintro hnk herr hch fuel hfuel
    obtain ⟨n1, hn1, hnk1⟩ := hnk
    obtain ⟨n2, hn2, hch2⟩ := hch
    obtain ⟨k, rfl⟩ : ∃ k, fuel = k + 1 := ⟨fuel - 1, by omega⟩
    unfold wait_known_state
    rw [waitLoop_succ,
      if_neg (init_not_all_known names (List.ne_nil_of_mem hn1))]
    rw [if_pos (show pollNames (fun _ x => f x) 0 names ≠
      names.map fun x => (x, (some "" : Option String)) from
      map_pair_ne f (fun _ => some "") n2 names hn2 (by simpa using hch2))]
    rw [if_neg (fun h => by
      obtain ⟨p, hp, hpe⟩ := List.any_eq_true.mp h
      obtain ⟨x, hx, rfl⟩ := List.mem_map.mp hp
      exact herr x hx (by simpa using hpe))]
    simp only [pollNames, Nat.zero_add, List.nil_append]
    rw [hsettle k 1 _ herr ⟨n1, hn1, hnk1⟩]
    simp [isLogStatus]

/-- **C2** (witness).  Constant statuses `a ↦ "known"`, `b ↦ "error"`
with logs available only for `a`: the first poll aborts fatally, dumping
`a`'s diagnostics, regardless of `a` being healthy. -/
theorem wait_known_state_spec_witness :
    wait_known_state
        (fun _ n => if n = "b" then some "error" else some "known")
        ["a", "b"] (fun n => n == "a") 1 =
      (.fatalExit,
        .logStatus [("a", some "known"), ("b", some "error")] ::
          [.printLogs "a"]) := by
  have h := (wait_known_state_spec
      (fun n => if n = "b" then some "error" else some "known")
      ["a", "b"] (fun n => n == "a")).2.1
    ⟨"b", by decide, by decide⟩ 1 (by decide)
  simpa using h

/-! ## `clusterDeployer.py`: `ClusterDeployer._rename_workers`

`_try_rename_workers` is modelled by `tryPass : pass-index → number of
workers renamed in that pass` (the backend inventory may change between
passes).  The `for try_count in itertools.count(0)` loop emits one
`pass` event per full matching pass and a `sleep5` event for each
`time.sleep(5)`. -/

inductive RenameEvent where
  | pass (renamed : Nat)
  | sleep5
deriving DecidableEq, Repr

/-- The unbounded retry loop of `_rename_workers`: break once a pass
renamed the expected count; after a pass that renamed at least one (but
not all) workers, log and sleep 5 seconds; after a pass that renamed
none, retry immediately.  `none` when the fuel runs out. -/
def renameLoop (tryPass : Nat → Nat) (expected tryCount fuel : Nat)
    (events : List RenameEvent) : Option (List RenameEvent) :=
  match fuel with
  | 0 => none
  | fuel + 1 =>
    if tryPass tryCount = expected then some (events ++ [.pass (tryPass tryCount)])
    else if tryPass tryCount ≠ 0 then
      renameLoop tryPass expected (tryCount + 1) fuel
        (events ++ [.pass (tryPass tryCount), .sleep5])
    else
      renameLoop tryPass expected (tryCount + 1) fuel
        (events ++ [.pass (tryPass tryCount)])

/-- The correlation loop of `_rename_workers`, starting at `try_count = 0`. -/
def rename_workers (tryPass : Nat → Nat) (expected fuel : Nat) :
    Option (List RenameEvent) :=
  renameLoop tryPass expected 0 fuel []

/-- Events of the passes `c, c+1, …, c+n` where pass `c+n` is the final
(successful) one: a `sleep5` follows exactly the non-final passes that
renamed at least one worker. -/
def renameTraceFrom (tryPass : Nat → Nat) (c : Nat) : Nat → List RenameEvent
  | 0 => [.pass (tryPass c)]
  | n + 1 =>
    ([.pass (tryPass c)] ++ if tryPass c ≠ 0 then [.sleep5] else []) ++
      renameTraceFrom tryPass (c + 1) n

theorem renameLoop_run (tryPass : Nat → Nat) (expected : Nat) :
    ∀ n c fuel events, tryPass (c + n) = expected →
      (∀ m, m < n → tryPass (c + m) ≠ expected) → n < fuel →
      renameLoop tryPass expected c fuel events =
        some (events ++ renameTraceFrom tryPass c n) := by
  intro n
  induction n with
  | zero =>
    intro c fuel events hn _ hfuel
    obtain ⟨g, rfl⟩ : ∃ g, fuel = g + 1 := ⟨fuel - 1, by omega⟩
    rw [renameLoop, if_pos (by simpa using hn)]
    rfl
  | succ n ih =>
    intro c fuel events hn hprev hfuel
    obtain ⟨g, rfl⟩ : ∃ g, fuel = g + 1 := ⟨fuel - 1, by omega⟩
    have hc : tryPass c ≠ expected := by
      have := hprev 0 (by omega)
      simpa using this
    rw [renameLoop, if_neg hc]
    have hn' : tryPass (c + 1 + n) = expected := by
      rw [show c + 1 + n = c + (n + 1) by omega]
      exact hn
    have hprev' : ∀ m, m < n → tryPass (c + 1 + m) ≠ expected := by
      intro m hm
      rw [show c + 1 + m = c + (m + 1) by omega]
      exact hprev (m + 1) (by omega)
    by_cases hz : tryPass c ≠ 0
    · rw [if_pos hz, ih (c + 1) g _ hn' hprev' (by omega)]
      rw [renameTraceFrom, if_pos hz]
      simp
    · rw [if_neg hz, ih (c + 1) g _ hn' hprev' (by omega)]
      rw [renameTraceFrom, if_neg hz]
      simp

/-- **C8** (amended).  The correlation loop repeats full matching passes
with no attempt cap: whenever pass `n` is the first to rename the full
expected count, the loop terminates right after it for *every* fuel
bound above `n` — but it sleeps 5 seconds only after a pass that renamed
at least one (and not all) workers; after a pass that renamed none, the
next pass starts immediately with no sleep (see `renameTraceFrom`). -/
theorem rename_workers_unbounded (tryPass : Nat → Nat) (expected n : Nat)
    (hn : tryPass n = expected)
    (hprev : ∀ m, m < n → tryPass m ≠ expected) :
    ∀ fuel, n < fuel →
      rename_workers tryPass expected fuel =
        some (renameTraceFrom tryPass 0 n) := by
  intro fuel hfuel
  unfold rename_workers
  rw [renameLoop_run tryPass expected n 0 fuel [] (by simpa using hn)
    (by simpa using hprev) hfuel]
  rfl

/-- **C8** (witness).  A first pass renaming 1 of 2 workers and a second
pass renaming both: the loop stops after pass 1, with the 5-second sleep
in between. -/
theorem rename_workers_unbounded_witness :
    rename_workers (fun m => if m = 0 then 1 else 2) 2 3 =
      some [.pass 1, .sleep5, .pass 2] := by
  have h := rename_workers_unbounded (fun m => if m = 0 then 1 else 2) 2 1
    (by decide)
    (by
      intro m hm
      interval_cases m
      decide)
    3 (by decide)
  simpa [renameTraceFrom] using h

/-- **C8** (counterexample).  A first pass that renames nothing is
followed *immediately* by the next pass: the emitted trace contains two
successive passes with no `sleep5` between them, contradicting the
claim's "sleeps 5 seconds between every pair of successive passes". -/
theorem rename_workers_no_sleep_counterexample :
    rename_workers (fun m => if m = 0 then 0 else 1) 1 10 =
        some [.pass 0, .pass 1] ∧
      RenameEvent.sleep5 ∉ [RenameEvent.pass 0, RenameEvent.pass 1] := by
  refine ⟨by decide, by decide⟩

/-! ## `dhcpConfig.py`: `DhcpConfig.add_host`

The host reservation list `_host_configs` and the transformation
`add_host` performs on it.  (`add_host` also maintains the subnet list
`_subnet_configs`, which never touches the host reservations; claims C9
and C10 are about the host reservations.) -/

structure DhcpdHostConfig where
  hostname : String
  hardware_ethernet : String
  fixed_address : String
deriving DecidableEq, Repr

/-- The `for idx, hc in reversed(list(enumerate(...)))` deletion pass:
drop every entry with a different hostname but the same fixed address or
the same MAC as the new entry. -/
def dropOverlapping (new : DhcpdHostConfig) (hcs : List DhcpdHostConfig) :
    List DhcpdHostConfig :=
  hcs.filter fun hc =>
    decide (hc.hostname = new.hostname ∨
      (hc.fixed_address ≠ new.fixed_address ∧
        hc.hardware_ethernet ≠ new.hardware_ethernet))

/-- The `matching` pass: replace the first entry carrying the new
hostname by the new config and delete every later duplicate of that
hostname, keeping all other entries in order. -/
def upsertFirst (new : DhcpdHostConfig) :
    List DhcpdHostConfig → List DhcpdHostConfig
  | [] => []
  | hc :: rest =>
    if hc.hostname = new.hostname then
      new :: rest.filter fun hc2 => decide (hc2.hostname ≠ new.hostname)
    else hc :: upsertFirst new rest

/-- Model of `DhcpConfig.add_host` restricted to the host reservation list. -/
def add_host (hcs : List DhcpdHostConfig) (new : DhcpdHostConfig) :
    List DhcpdHostConfig :=
  if (dropOverlapping new hcs).any fun hc => decide (hc.hostname = new.hostname)
  then upsertFirst new (dropOverlapping new hcs)
  else dropOverlapping new hcs ++ [new]

theorem mem_upsertFirst (new : DhcpdHostConfig) :
    ∀ l x, x ∈ upsertFirst new l → x = new ∨ x ∈ l := by
  intro l
  induction l with
  | nil => intro x hx; cases hx
  | cons hc rest ih =>
    intro x hx
    rw [upsertFirst] at hx
    by_cases hh : hc.hostname = new.hostname
    · rw [if_pos hh] at hx
      rcases List.mem_cons.mp hx with rfl | hx'
      · exact Or.inl rfl
      · exact Or.inr (List.mem_cons_of_mem _ (List.mem_of_mem_filter hx'))
    · rw [if_neg hh] at hx
      rcases List.mem_cons.mp hx with rfl | hx'
      · exact Or.inr (List.mem_cons_self _ _)
      · rcases ih x hx' with h | h
        · exact Or.inl h
        · exact Or.inr (List.mem_cons_of_mem _ h)

/-- Every member of `add_host hcs new` is the new entry or a survivor of
the overlap-deletion pass. -/
theorem mem_add_host (hcs : List DhcpdHostConfig) (new x : DhcpdHostConfig)
    (hx : x ∈ add_host hcs new) : x = new ∨ x ∈ dropOverlapping new hcs := by
  unfold add_host at hx
  by_cases hany : ((dropOverlapping new hcs).any fun hc =>
      decide (hc.hostname = new.hostname)) = true
  · rw [if_pos hany] at hx
    exact mem_upsertFirst new _ x hx
  · rw [if_neg hany] at hx
    rcases List.mem_append.mp hx with h | h
    · exact Or.inr h
    · exact Or.inl (by simpa using h)

theorem filter_hostname_upsertFirst (new : DhcpdHostConfig) :
    ∀ l, (l.any fun hc => decide (hc.hostname = new.hostname)) = true →
      ((upsertFirst new l).filter fun hc =>
        decide (hc.hostname = new.hostname)) = [new] := by
  intro l
  induction l with
  | nil => intro h; simp at h
  | cons hc rest ih =>
    intro hany
    rw [upsertFirst]
    by_cases hh : hc.hostname = new.hostname
    · rw [if_pos hh, List.filter_cons]
      rw [if_pos (by simp)]
      congr 1
      rw [List.filter_filter]
      apply List.filter_eq_nil_iff.mpr
      intro a _
      simp
    · rw [if_neg hh, List.filter_cons, if_neg (by simpa using hh)]
      apply ih
      rcases List.any_eq_true.mp hany with ⟨a, ha, hdec⟩
      rcases List.mem_cons.mp ha with rfl | ha'
      · exact absurd (by simpa using hdec) hh
      · exact List.any_eq_true.mpr ⟨a, ha', hdec⟩

/-- **C9** part 1: after `add_host`, exactly one reservation carries the
new hostname and it is exactly the new `(hostname, MAC, IP)` entry. -/
theorem add_host_filter_hostname (hcs : List DhcpdHostConfig)
    (new : DhcpdHostConfig) :
    ((add_host hcs new).filter fun hc =>
      decide (hc.hostname = new.hostname)) = [new] := by
  unfold add_host
  by_cases hany : ((dropOverlapping new hcs).any fun hc =>
      decide (hc.hostname = new.hostname)) = true
  · rw [if_pos hany]
    exact filter_hostname_upsertFirst new _ hany
  · rw [if_neg hany, List.filter_append]
    rw [List.filter_eq_nil_iff.mpr (by
      intro a ha
      intro hdec
      exact hany (List.any_eq_true.mpr ⟨a, ha, hdec⟩))]
    simp

/-- Helper: a list whose hostname-filter is exactly `[new]` is left
unchanged by `upsertFirst new`. -/
theorem upsertFirst_settled (new : DhcpdHostConfig) :
    ∀ l, (l.filter fun hc => decide (hc.hostname = new.hostname)) = [new] →
      upsertFirst new l = l := by
  intro l
  induction l with
  | nil => intro h; simp at h
  | cons hc rest ih =>
    intro hfilter
    rw [List.filter_cons] at hfilter
    rw [upsertFirst]
    by_cases hh : hc.hostname = new.hostname
    · rw [if_pos hh]
      rw [if_pos (by simpa using hh)] at hfilter
      injection hfilter with h1 h2
      subst h1
      congr 1
      apply List.filter_eq_self.mpr
      intro a ha
      have := List.filter_eq_nil_iff.mp h2 a ha
      simp at this
      simp [this]
    · rw [if_neg hh]
      rw [if_neg (by simpa using hh)] at hfilter
      rw [ih hfilter]

theorem new_mem_upsertFirst (new : DhcpdHostConfig) :
    ∀ l, (l.any fun hc => decide (hc.hostname = new.hostname)) = true →
      new ∈ upsertFirst new l := by
  intro l
  induction l with
  | nil => intro h; simp at h
  | cons hc rest ih =>
    intro hany
    rw [upsertFirst]
    by_cases hh : hc.hostname = new.hostname
    · rw [if_pos hh]
      exact List.mem_cons_self _ _
    · rw [if_neg hh]
      apply List.mem_cons_of_mem
      apply ih
      rcases List.any_eq_true.mp hany with ⟨a, ha, hdec⟩
      rcases List.mem_cons.mp ha with rfl | ha'
      · exact absurd (by simpa using hdec) hh
      · exact List.any_eq_true.mpr ⟨a, ha', hdec⟩

theorem new_mem_add_host (hcs : List DhcpdHostConfig) (new : DhcpdHostConfig) :
    new ∈ add_host hcs new := by
  unfold add_host
  by_cases hany : ((dropOverlapping new hcs).any fun hc =>
      decide (hc.hostname = new.hostname)) = true
  · rw [if_pos hany]
    exact new_mem_upsertFirst new _ hany
  · rw [if_neg hany]
    simp

/-- The overlap-deletion pass leaves the result of `add_host` unchanged:
every surviving entry either carries the new hostname or differs from
the new entry in both address and MAC. -/
theorem dropOverlapping_add_host (hcs : List DhcpdHostConfig)
    (new : DhcpdHostConfig) :
    dropOverlapping new (add_host hcs new) = add_host hcs new := by
  apply List.filter_eq_self.mpr
  intro x hx
  rcases mem_add_host hcs new x hx with rfl | hdrop
  · simp
  · exact (List.mem_filter.mp hdrop).2

/-- **C9**.  `DhcpConfig.add_host` is an idempotent upsert keyed by
hostname: afterwards exactly one reservation carries the new hostname
(with exactly the given MAC and fixed IP); every prior reservation with
a different hostname but the same fixed IP or the same MAC is gone; and
running the same `add_host` again changes nothing. -/
theorem add_host_upsert_spec (hcs : List DhcpdHostConfig)
    (new : DhcpdHostConfig) :
    ((add_host hcs new).filter fun hc =>
        decide (hc.hostname = new.hostname)) = [new] ∧
      (∀ hc ∈ hcs, hc.hostname ≠ new.hostname →
        (hc.fixed_address = new.fixed_address ∨
          hc.hardware_ethernet = new.hardware_ethernet) →
        hc ∉ add_host hcs new) ∧
      add_host (add_host hcs new) new = add_host hcs new := by
  refine ⟨add_host_filter_hostname hcs new, ?_, ?_⟩
  · intro hc _ hname hover hcontra
    rcases mem_add_host hcs new hc hcontra with rfl | hdrop
    · exact hname rfl
    · have hcond := (List.mem_filter.mp hdrop).2
      simp only [decide_eq_true_eq] at hcond
      rcases hcond with h | ⟨ha, hm⟩
      · exact hname h
      · rcases hover with h | h
        · exact ha h
        · exact hm h
  · have hmem := new_mem_add_host hcs new
    have hdrop := dropOverlapping_add_host hcs new
    have hany : ((dropOverlapping new (add_host hcs new)).any fun hc =>
        decide (hc.hostname = new.hostname)) = true := by
      rw [hdrop]
      exact List.any_eq_true.mpr ⟨new, hmem, by simp⟩
    conv_lhs => rw [add_host]
    rw [if_pos hany, hdrop]
    exact upsertFirst_settled new _ (add_host_filter_hostname hcs new)

/-- **C9** (witness).  A prior reservation `x` at MAC `m1` is evicted by
upserting host `y` with the same MAC. -/
theorem add_host_upsert_spec_witness :
    (⟨"x", "m1", "i1"⟩ : DhcpdHostConfig) ∉
      add_host [⟨"x", "m1", "i1"⟩] ⟨"y", "m1", "i2"⟩ :=
  (add_host_upsert_spec [⟨"x", "m1", "i1"⟩] ⟨"y", "m1", "i2"⟩).2.1
    ⟨"x", "m1", "i1"⟩ (by decide) (by decide) (by decide)

/-! ## `dhcpConfig.py`: class-level reservation state (claim C10)

`DhcpConfig` declares `_host_configs: list = []` in the class body and
no method ever rebinds the attribute on `self` — every access mutates the
list in place — so Python attribute lookup resolves it to the single
class-level list object for every instance.  The embedding makes the
aliasing explicit: list objects live in a heap, the class attribute
holds a reference, and a freshly constructed `DhcpConfig` has no
instance-level entry (`instHostsRef = none`), so lookups fall through to
the class reference.  (The subnet list `_subnet_configs` is declared and
mutated the same way.) -/

structure DhcpClassState where
  heap : Nat → List DhcpdHostConfig
  classHostsRef : Nat

structure DhcpConfigObj where
  instHostsRef : Option Nat
deriving DecidableEq, Repr

/-- Constructing `DhcpConfig()` — no `__init__`, so no instance attribute is created. -/
def mkDhcpConfig : DhcpConfigObj := ⟨none⟩

/-- Python attribute lookup `self._host_configs`: instance dict first,
then the class attribute. -/
def hostsRef (o : DhcpConfigObj) (s : DhcpClassState) : Nat :=
  o.instHostsRef.getD s.classHostsRef

/-- The reservation list visible through instance `o`. -/
def readHosts (o : DhcpConfigObj) (s : DhcpClassState) : List DhcpdHostConfig :=
  s.heap (hostsRef o s)

/-- Model of `DhcpConfig.add_host` called on instance `o`: the in-place deletes,
updates and appends all mutate the list object that attribute lookup
resolved. -/
def DhcpConfig_add_host (o : DhcpConfigObj) (s : DhcpClassState)
    (new : DhcpdHostConfig) : DhcpClassState :=
  { s with
    heap := fun i =>
      if i = hostsRef o s then add_host (s.heap i) new else s.heap i }

/-- Model of `dhcp_config_from_file`: construct `DhcpConfig()` and append each
host entry the parser extracts through `config._host_configs.append`.
The regex line parsing is abstracted into `parsed`, the list of host
entries read from the file; the claim concerns where the appends land. -/
def dhcp_config_from_file (s : DhcpClassState)
    (parsed : List DhcpdHostConfig) : DhcpConfigObj × DhcpClassState :=
  (mkDhcpConfig,
    { s with
      heap := fun i =>
        if i = hostsRef mkDhcpConfig s then s.heap i ++ parsed
        else s.heap i })

/-- **C10**.  The reservation list is class-level state shared by every
instance: an `add_host` through one freshly constructed instance is
observable through any other, and the `DhcpConfig` returned by
`dhcp_config_from_file` exposes every entry accumulated before plus the
parsed entries — not only the entries parsed from the file. -/
theorem dhcp_config_class_shared (s : DhcpClassState) (o1 o2 : DhcpConfigObj)
    (h1 : o1.instHostsRef = none) (h2 : o2.instHostsRef = none)
    (new : DhcpdHostConfig) (parsed : List DhcpdHostConfig) :
    readHosts o2 (DhcpConfig_add_host o1 s new) =
        add_host (readHosts o2 s) new ∧
      readHosts (dhcp_config_from_file s parsed).1
          (dhcp_config_from_file s parsed).2 =
        readHosts o1 s ++ parsed := by
  have e1 : hostsRef o1 s = s.classHostsRef := by simp [hostsRef, h1]
  have e2 : hostsRef o2 s = s.classHostsRef := by simp [hostsRef, h2]
  constructor
  · show (DhcpConfig_add_host o1 s new).heap (hostsRef o2 _) =
      add_host (s.heap (hostsRef o2 s)) new
    simp only [DhcpConfig_add_host, hostsRef, h1, h2, Option.getD_none]
    simp
  · show (dhcp_config_from_file s parsed).2.heap (hostsRef mkDhcpConfig _) =
      s.heap (hostsRef o1 s) ++ parsed
    simp only [dhcp_config_from_file, hostsRef, h1, mkDhcpConfig,
      Option.getD_none]
    simp

/-- **C10** (witness).  From a state already holding one reservation, a
second instance sees the entry added through the first, and a fresh
parse result carries the accumulated entry in front of the parsed one. -/
theorem dhcp_config_class_shared_witness :
    readHosts mkDhcpConfig
        (DhcpConfig_add_host mkDhcpConfig
          ⟨fun _ => [], 0⟩ ⟨"a", "m", "i"⟩) = [⟨"a", "m", "i"⟩] ∧
      readHosts
          (dhcp_config_from_file ⟨fun _ => [⟨"a", "m", "i"⟩], 0⟩
            [⟨"b", "m2", "i2"⟩]).1
          (dhcp_config_from_file ⟨fun _ => [⟨"a", "m", "i"⟩], 0⟩
            [⟨"b", "m2", "i2"⟩]).2 =
        [⟨"a", "m", "i"⟩, ⟨"b", "m2", "i2"⟩] := by
  constructor
  · have h := (dhcp_config_class_shared ⟨fun _ => [], 0⟩ mkDhcpConfig
      mkDhcpConfig rfl rfl ⟨"a", "m", "i"⟩ []).1
    rw [h]
    decide
  · have h := (dhcp_config_class_shared ⟨fun _ => [⟨"a", "m", "i"⟩], 0⟩
      mkDhcpConfig mkDhcpConfig rfl rfl ⟨"a", "m", "i"⟩
      [⟨"b", "m2", "i2"⟩]).2
    rw [h]
    decide

/-! ## `clusterDeployer.py`: phase state machine (claims C5, C6, C7)

`ClusterDeployer.deploy` and its phases are straight-line code whose
observable behaviour is the ordered trace of collaborator calls and log
lines they emit.  Hosts are identified by `Nat` ids; the per-phase host
sets (`_all_hosts_with_masters()`, …) are configuration-derived and kept
abstract as lists (the code iterates Python sets, so any order).  The
`virsh list` output used by `teardown_workers` is the environment
`vms`. -/

inductive DAction where
  | logInfo (msg : String)
  | assertFalse
  | raiseValueError
  | extraConfigRun (name : String)
  | aiEnsureClusterDeleted
  | aiEnsureInfraenvDeleted (name : String)
  | dnsmasqUpdate (setup : Bool)
  | teardownNodes (h : Nat) (role : String)
  | removeDhcpEntries (which : String)
  | virshPoolRemove
  | ensureNotLinked (h : Nat)
  | deleteKubeconfig
  | virshList (h : Nat)
  | clientDeleteNode (w : String)
  | aiDeleteHost (w : String)
  | microshiftDeploy
  | isoBootIpu
  | isoBootMarvell
  | createCluster
  | aiEnsureInfraenvCreatedMasters
  | configureBridge (h : Nat)
  | setupDhcpEntries (which : String)
  | ensureLinked (h : Nat)
  | downloadIsoMasters
  | startMasters (h : Nat)
  | waitMastersBoot (h : Nat)
  | waitKnownStateMasters
  | aiStartUntilSuccess
  | downloadKubeconfig
  | aiWaitCluster
  | updateEtcHosts
  | joinFutures
  | setPasswordMasters (h : Nat)
  | aiAllowAddWorkers
  | aiEnsureInfraenvCreatedWorkers
  | preinstall (h : Nat)
  | downloadIsoWorkers
  | startWorkers (h : Nat)
  | waitWorkersBoot (h : Nat)
  | renameWorkers
  | waitKnownStateWorkers
  | aiStartInfraenv
  | waitForWorkers
  | setPasswordWorkers (h : Nat)
deriving DecidableEq, Repr

/-- The step names of `arguments.py` (`{pre, masters, workers, post}`). -/
def PRE_STEP : String := "pre"

def MASTERS_STEP : String := "masters"

def WORKERS_STEP : String := "workers"

def POST_STEP : String := "post"

/-- The configuration-derived inputs of `ClusterDeployer`. -/
structure CConfig where
  kind : String
  masters : List String
  workers : List String
  steps : List String
  hostsWithMasters : List Nat
  hostsWithWorkers : List Nat
  hostsWithOnlyWorkers : List Nat
  singleMasterKind : String
  preconfigs : List String
  postconfigs : List String

/-- Model of `ClusterDeployer.teardown_masters(force=...)`.  Note the source's
skip-without-masters branch only logs — it does not return. -/
def teardown_masters (cc : CConfig) (force : Bool) : List DAction :=
  if cc.kind ≠ "openshift" then
    [.logInfo "tear down masters: skipping for cluster kind"]
  else
    (if ¬force ∧ cc.masters = [] then
      [.logInfo "tear down masters: skip without masters"]
    else []) ++
    if MASTERS_STEP ∉ cc.steps then
      [.logInfo "tear down masters: skip masters step"]
    else
      [.logInfo "tear down masters: start", .aiEnsureClusterDeleted,
        .dnsmasqUpdate false] ++
      cc.hostsWithMasters.map (.teardownNodes · "masters") ++
      [.aiEnsureInfraenvDeleted "x86_64", .aiEnsureInfraenvDeleted "arm64",
        .removeDhcpEntries "masters", .virshPoolRemove] ++
      cc.hostsWithMasters.map .ensureNotLinked ++
      [.deleteKubeconfig]

/-- Model of `ClusterDeployer.teardown_workers(force=...)`. -/
def teardown_workers (cc : CConfig) (force : Bool) (vms : Nat → List String)
    (hostsVms : Nat → Bool) : List DAction :=
  if cc.kind ≠ "openshift" then
    [.logInfo "tear down workers: skipping for cluster kind"]
  else if ¬force ∧ cc.masters = [] then
    [.logInfo "tear down workers: skipping without masters"]
  else if WORKERS_STEP ∉ cc.steps ∧ MASTERS_STEP ∉ cc.steps then
    [.logInfo "preconfig step: skip workers and masters step"]
  else
    [.logInfo "tear down workers: start"] ++
    cc.hostsWithWorkers.map (.teardownNodes · "workers") ++
    [.removeDhcpEntries "workers"] ++
    (cc.hostsWithOnlyWorkers.map fun h =>
      (if hostsVms h then [DAction.virshList h] else []) ++
      (if (if hostsVms h then vms h else []) = [] then [DAction.ensureNotLinked h]
       else [DAction.logInfo "bridge not unlinked"])).flatten ++
    if MASTERS_STEP ∈ cc.steps then []
    else (cc.workers.map fun w =>
      [DAction.clientDeleteNode w, DAction.aiDeleteHost w]).flatten

/-- Model of `ClusterDeployer._preconfig`. -/
def preconfig (cc : CConfig) : List DAction :=
  if cc.masters = [] then [.logInfo "preconfig step: skipping without masters"]
  else if PRE_STEP ∉ cc.steps then [.logInfo "preconfig step: skip pre step"]
  else .logInfo "preconfig step: start" :: cc.preconfigs.map .extraConfigRun

/-- Model of `ClusterDeployer._postconfig`. -/
def postconfig (cc : CConfig) : List DAction :=
  if POST_STEP ∉ cc.steps then [.logInfo "postconfig step: skip post step"]
  else .logInfo "postconfig step: start" :: cc.postconfigs.map .extraConfigRun

/-- Model of `ClusterDeployer._create_cluster`. -/
def create_cluster (cc : CConfig) : List DAction :=
  if cc.kind ≠ "openshift" then [.logInfo "create cluster: skip for cluster type"]
  else if cc.masters = [] then [.logInfo "create cluster: skip without masters"]
  else if MASTERS_STEP ∉ cc.steps then [.logInfo "create cluster: skip masters step"]
  else [.logInfo "create cluster: start", .createCluster]

/-- The straight-line body of `_create_masters` once its guards passed,
over the iteration order `hosts` of `_all_hosts_with_masters()`. -/
def create_masters_body (hosts : List Nat) : List DAction :=
  [.logInfo "create masters: start", .aiEnsureInfraenvCreatedMasters] ++
  hosts.map .configureBridge ++
  [.setupDhcpEntries "masters"] ++
  hosts.map .ensureLinked ++
  [.downloadIsoMasters] ++
  hosts.map .startMasters ++
  hosts.map .waitMastersBoot ++
  [.waitKnownStateMasters, .aiStartUntilSuccess, .downloadKubeconfig,
    .aiWaitCluster, .logInfo "updating etc hosts", .updateEtcHosts,
    .joinFutures] ++
  hosts.map .ensureLinked ++
  [.logInfo "setting password"] ++
  hosts.map .setPasswordMasters ++
  [.dnsmasqUpdate true]

/-- Model of `ClusterDeployer._create_masters`. -/
def create_masters (cc : CConfig) : List DAction :=
  if cc.kind ≠ "openshift" then [.logInfo "create masters: skip for cluster type"]
  else if cc.masters = [] then [.logInfo "create masters: skip without masters"]
  else if MASTERS_STEP ∉ cc.steps then [.logInfo "create masters: skip masters step"]
  else create_masters_body cc.hostsWithMasters

/-- Model of `ClusterDeployer._create_workers`. -/
def create_workers (cc : CConfig) : List DAction :=
  if cc.kind ≠ "openshift" then
    [.logInfo "setting up workers: skip for cluster kind"]
  else if cc.workers = [] then [.logInfo "setting up workers: no worker to setup"]
  else if cc.masters = [] then [.logInfo "setting up workers: skip without masters"]
  else if WORKERS_STEP ∉ cc.steps then
    [.logInfo "setting up workers: skip workers step"]
  else
    [.logInfo "setting up workers", .aiAllowAddWorkers,
      .aiEnsureInfraenvCreatedWorkers] ++
    cc.hostsWithWorkers.map .configureBridge ++
    [.setupDhcpEntries "workers"] ++
    cc.hostsWithWorkers.map .ensureLinked ++
    cc.hostsWithWorkers.map .preinstall ++
    [.downloadIsoWorkers] ++
    cc.hostsWithWorkers.map .startWorkers ++
    cc.hostsWithWorkers.map .waitWorkersBoot ++
    [.logInfo "renaming workers", .renameWorkers, .waitKnownStateWorkers,
      .logInfo "starting infra env", .aiStartInfraenv,
      .logInfo "waiting for workers to be ready", .waitForWorkers,
      .logInfo "setting password"] ++
    cc.hostsWithWorkers.map .setPasswordWorkers ++
    [.joinFutures]

/-- Model of `ClusterDeployer._deploy_cluster`: dispatch on the cluster kind. -/
def deploy_cluster (cc : CConfig) : List DAction :=
  if cc.kind = "microshift" then
    if MASTERS_STEP ∉ cc.steps then [.logInfo "deploy cluster: skip masters step"]
    else [.logInfo "deploy cluster: start microshift deploy", .microshiftDeploy]
  else if cc.kind = "iso" then
    if MASTERS_STEP ∉ cc.steps then [.logInfo "deploy cluster: skip masters step"]
    else
      [.logInfo "create cluster: start iso deploy"] ++
      if cc.singleMasterKind = "ipu" then [.isoBootIpu]
      else if cc.singleMasterKind = "marvell-dpu" then [.isoBootMarvell]
      else [.raiseValueError]
  else if cc.kind = "openshift" then
    [.logInfo "deploy cluster: start openshift deploy"] ++
    create_cluster cc ++ create_masters cc ++ create_workers cc
  else [.assertFalse]

/-- Model of `ClusterDeployer.deploy`: preconfig, both teardown preludes with
`force=False`, the kind-specific deploy, postconfig. -/
def deploy (cc : CConfig) (vms : Nat → List String) (hostsVms : Nat → Bool) :
    List DAction :=
  preconfig cc ++ teardown_workers cc false vms hostsVms ++
    teardown_masters cc false ++ deploy_cluster cc ++ postconfig cc

/-- **C5**.  As deploy preludes (`force=False`), both teardown calls are
skipped outright when no masters are configured and the corresponding
steps were not requested: they emit informational log lines only — no
teardown action, no external collaborator contact — and return normally
(`deploy` invokes exactly `teardown_workers cc false …` and
`teardown_masters cc false`). -/
theorem teardown_prelude_skipped (cc : CConfig) (vms : Nat → List String)
    (hostsVms : Nat → Bool) (hm : cc.masters = [])
    (_hws : WORKERS_STEP ∉ cc.steps) (hms : MASTERS_STEP ∉ cc.steps) :
    (∀ a ∈ teardown_workers cc false vms hostsVms, ∃ m, a = .logInfo m) ∧
      (∀ a ∈ teardown_masters cc false, ∃ m, a = .logInfo m) := by
  constructor
  · intro a ha
    unfold teardown_workers at ha
    by_cases h1 : cc.kind ≠ "openshift"
    · rw [if_pos h1] at ha
      simp at ha
      exact ⟨_, ha⟩
    · rw [if_neg h1, if_pos ⟨by simp, hm⟩] at ha
      simp at ha
      exact ⟨_, ha⟩
  · intro a ha
    unfold teardown_masters at ha
    by_cases h1 : cc.kind ≠ "openshift"
    · rw [if_pos h1] at ha
      simp at ha
      exact ⟨_, ha⟩
    · rw [if_neg h1, if_pos (⟨by simp, hm⟩ : ¬(false = true) ∧ cc.masters = []),
        if_pos hms] at ha
      simp at ha
      rcases ha with ha | ha <;> exact ⟨_, ha⟩

/-- Concrete configuration for the C5 witness: openshift kind, no
masters, one worker host, only the post step selected. -/
def cfgC5 : CConfig :=
  ⟨"openshift", [], ["w"], ["post"], [], [], [0], "x", [], []⟩

/-- **C5** (witness). -/
theorem teardown_prelude_skipped_witness :
    (∀ a ∈ teardown_workers cfgC5 false (fun _ => []) (fun _ => false),
        ∃ m, a = .logInfo m) ∧
      (∀ a ∈ teardown_masters cfgC5 false, ∃ m, a = .logInfo m) :=
  teardown_prelude_skipped cfgC5 (fun _ => []) (fun _ => false) rfl
    (by decide) (by decide)

/-- The master-provisioning operations of claim C7: cluster creation,
master infra-env creation, master boot commands, and the kind-specific
whole-cluster master deploys. -/
def isMasterProv : DAction → Bool
  | .createCluster => true
  | .aiEnsureInfraenvCreatedMasters => true
  | .startMasters _ => true
  | .microshiftDeploy => true
  | .isoBootIpu => true
  | .isoBootMarvell => true
  | _ => false

theorem preconfig_no_prov (cc : CConfig) :
    ∀ a ∈ preconfig cc, isMasterProv a = false := by
  intro a ha
  unfold preconfig at ha
  split_ifs at ha <;> cases a <;> simp_all [isMasterProv]

theorem postconfig_no_prov (cc : CConfig) :
    ∀ a ∈ postconfig cc, isMasterProv a = false := by
  intro a ha
  unfold postconfig at ha
  split_ifs at ha <;> cases a <;> simp_all [isMasterProv]

theorem teardown_masters_no_prov (cc : CConfig) (force : Bool) :
    ∀ a ∈ teardown_masters cc force, isMasterProv a = false := by
  intro a ha
  unfold teardown_masters at ha
  split_ifs at ha <;> cases a <;> simp_all [isMasterProv]

theorem teardown_workers_host_elem (vms : Nat → List String)
    (hostsVms : Nat → Bool) (h : Nat) (a : DAction)
    (ha : a ∈ (if hostsVms h = true then [DAction.virshList h] else []) ++
      (if (if hostsVms h = true then vms h else []) = [] then
        [DAction.ensureNotLinked h]
      else [DAction.logInfo "bridge not unlinked"])) :
    isMasterProv a = false := by
  rcases List.mem_append.mp ha with h1 | h2
  · split_ifs at h1
    · simp at h1
      subst h1
      rfl
    · cases h1
  · split_ifs at h2 <;> (simp at h2; subst h2; rfl)

theorem teardown_workers_core (cc : CConfig) (vms : Nat → List String)
    (hostsVms : Nat → Bool) (a : DAction)
    (ha : a ∈ [DAction.logInfo "tear down workers: start"] ++
      cc.hostsWithWorkers.map (DAction.teardownNodes · "workers") ++
      [DAction.removeDhcpEntries "workers"] ++
      (cc.hostsWithOnlyWorkers.map fun h =>
        (if hostsVms h then [DAction.virshList h] else []) ++
        (if (if hostsVms h then vms h else []) = [] then
          [DAction.ensureNotLinked h]
        else [DAction.logInfo "bridge not unlinked"])).flatten) :
    isMasterProv a = false := by
  rcases List.mem_append.mp ha with ha | hFlat
  · rcases List.mem_append.mp ha with ha | hDhcp
    · rcases List.mem_append.mp ha with hLog | hMap
      · simp at hLog; subst hLog; rfl
      · obtain ⟨h, _, rfl⟩ := List.mem_map.mp hMap
        rfl
    · simp at hDhcp; subst hDhcp; rfl
  · obtain ⟨s, hs, has⟩ := List.mem_flatten.mp hFlat
    obtain ⟨hh, _, rfl⟩ := List.mem_map.mp hs
    exact teardown_workers_host_elem vms hostsVms hh a has

theorem teardown_workers_no_prov (cc : CConfig) (force : Bool)
    (vms : Nat → List String) (hostsVms : Nat → Bool) :
    ∀ a ∈ teardown_workers cc force vms hostsVms, isMasterProv a = false := by
  intro a ha
  unfold teardown_workers at ha
  split_ifs at ha
  · simp at ha; subst ha; rfl
  · simp at ha; subst ha; rfl
  · simp at ha; subst ha; rfl
  · rcases List.mem_append.mp ha with ha | hT
    · exact teardown_workers_core cc vms hostsVms a ha
    · cases hT
  · rcases List.mem_append.mp ha with ha | hT
    · exact teardown_workers_core cc vms hostsVms a ha
    · obtain ⟨s, hs, has⟩ := List.mem_flatten.mp hT
      obtain ⟨w, _, rfl⟩ := List.mem_map.mp hs
      rcases List.mem_cons.mp has with rfl | h2
      · rfl
      · simp at h2
        subst h2
        rfl

theorem create_workers_no_prov (cc : CConfig) :
    ∀ a ∈ create_workers cc, isMasterProv a = false := by
  intro a ha
  unfold create_workers at ha
  split_ifs at ha <;> cases a <;> simp_all [isMasterProv]

theorem create_cluster_no_prov (cc : CConfig)
    (hs : MASTERS_STEP ∉ cc.steps) :
    ∀ a ∈ create_cluster cc, isMasterProv a = false := by
  intro a ha
  unfold create_cluster at ha
  split_ifs at ha
  all_goals first
    | exact absurd hs (by assumption)
    | (simp at ha; subst ha; rfl)

theorem create_masters_no_prov (cc : CConfig)
    (hs : MASTERS_STEP ∉ cc.steps) :
    ∀ a ∈ create_masters cc, isMasterProv a = false := by
  intro a ha
  unfold create_masters at ha
  split_ifs at ha
  all_goals first
    | exact absurd hs (by assumption)
    | (simp at ha; subst ha; rfl)

theorem deploy_cluster_no_prov (cc : CConfig)
    (hs : MASTERS_STEP ∉ cc.steps) :
    ∀ a ∈ deploy_cluster cc, isMasterProv a = false := by
  intro a ha
  unfold deploy_cluster at ha
  split_ifs at ha
  all_goals first
    | exact absurd hs (by assumption)
    | (simp at ha; subst ha; rfl)
    | (rcases List.mem_append.mp ha with ha | hcw
       · rcases List.mem_append.mp ha with ha | hcm
         · rcases List.mem_append.mp ha with hlog | hcc
           · simp at hlog; subst hlog; rfl
           · exact create_cluster_no_prov cc hs a hcc
         · exact create_masters_no_prov cc hs a hcm
       · exact create_workers_no_prov cc a hcw)

theorem create_cluster_skip (cc : CConfig) (hk : cc.kind = "openshift")
    (hm : cc.masters ≠ []) (hs : MASTERS_STEP ∉ cc.steps) :
    create_cluster cc = [.logInfo "create cluster: skip masters step"] := by
  unfold create_cluster
  rw [if_neg (fun h => h hk), if_neg hm, if_pos hs]

theorem create_masters_skip (cc : CConfig) (hk : cc.kind = "openshift")
    (hm : cc.masters ≠ []) (hs : MASTERS_STEP ∉ cc.steps) :
    create_masters cc = [.logInfo "create masters: skip masters step"] := by
  unfold create_masters
  rw [if_neg (fun h => h hk), if_neg hm, if_pos hs]

/-- **C7**.  When `"masters"` is not in the selected step set, a whole
deploy run issues no master-provisioning operation at all — no cluster
creation, no master infra-env creation, no master boot, and no
kind-specific master deploy — even when master nodes are configured; the
gated phases reduce to a single informational skip log. -/
theorem deploy_no_master_provisioning (cc : CConfig)
    (vms : Nat → List String) (hostsVms : Nat → Bool)
    (hstep : MASTERS_STEP ∉ cc.steps) :
    (deploy cc vms hostsVms).filter isMasterProv = [] ∧
      (cc.kind = "openshift" → cc.masters ≠ [] →
        create_cluster cc = [.logInfo "create cluster: skip masters step"] ∧
          create_masters cc = [.logInfo "create masters: skip masters step"]) := by
  constructor
  · apply List.filter_eq_nil_iff.mpr
    intro a ha
    have hfalse : isMasterProv a = false := by
      unfold deploy at ha
      rcases List.mem_append.mp ha with ha | hpost
      · rcases List.mem_append.mp ha with ha | hdc
        · rcases List.mem_append.mp ha with ha | htm
          · rcases List.mem_append.mp ha with hpre | htw
            · exact preconfig_no_prov cc a hpre
            · exact teardown_workers_no_prov cc false vms hostsVms a htw
          · exact teardown_masters_no_prov cc false a htm
        · exact deploy_cluster_no_prov cc hstep a hdc
      · exact postconfig_no_prov cc a hpost
    simp [hfalse]
  · intro hk hm
    exact ⟨create_cluster_skip cc hk hm hstep, create_masters_skip cc hk hm hstep⟩

/-- Concrete configuration for the C7 witness: masters are configured
but only the workers step is selected. -/
def cfgC7 : CConfig :=
  ⟨"openshift", ["m1"], ["w1"], ["workers"], [0], [1], [1], "x", [], []⟩

/-- **C7** (witness). -/
theorem deploy_no_master_provisioning_witness :
    (deploy cfgC7 (fun _ => []) (fun _ => false)).filter isMasterProv = [] ∧
      (cfgC7.kind = "openshift" → cfgC7.masters ≠ [] →
        create_cluster cfgC7 =
            [.logInfo "create cluster: skip masters step"] ∧
          create_masters cfgC7 =
            [.logInfo "create masters: skip masters step"]) :=
  deploy_no_master_provisioning cfgC7 (fun _ => []) (fun _ => false) (by decide)

/-! Position bounds inside appended traces, for the ordering claims. -/

theorem getElem?_append_bound_left {α : Type} {l₁ l₂ : List α} {i : Nat}
    {a : α} (hget : (l₁ ++ l₂)[i]? = some a) (hfree : ∀ x ∈ l₂, x ≠ a) :
    i < l₁.length ∧ l₁[i]? = some a := by
  by_cases hi : i < l₁.length
  · exact ⟨hi, by rwa [List.getElem?_append_left hi] at hget⟩
  · exfalso
    rw [List.getElem?_append_right (Nat.le_of_not_lt hi)] at hget
    exact hfree a (List.getElem?_mem hget) rfl

theorem getElem?_append_bound_right {α : Type} {l₁ l₂ : List α} {i : Nat}
    {a : α} (hget : (l₁ ++ l₂)[i]? = some a) (hfree : ∀ x ∈ l₁, x ≠ a) :
    ∃ k, i = l₁.length + k ∧ l₂[k]? = some a := by
  by_cases hi : i < l₁.length
  · exfalso
    rw [List.getElem?_append_left hi] at hget
    exact hfree a (List.getElem?_mem hget) rfl
  · refine ⟨i - l₁.length, by omega, ?_⟩
    rwa [List.getElem?_append_right (Nat.le_of_not_lt hi)] at hget

/-- Every `startMasters` command sits after the bridge/DHCP/link/ISO
prefix of `_create_masters` (positions `≥ 4 + 2·n hosts`). -/
theorem cm_startMasters_ge (hosts : List Nat) (i h : Nat)
    (hget : (create_masters_body hosts)[i]? = some (.startMasters h)) :
    4 + 2 * hosts.length ≤ i := by
  unfold create_masters_body at hget
  obtain ⟨_, hget⟩ := getElem?_append_bound_left hget
    (by intro x hx; fin_cases hx <;> simp)
  obtain ⟨_, hget⟩ := getElem?_append_bound_left hget
    (by intro x hx; obtain ⟨y, _, rfl⟩ := List.mem_map.mp hx; simp)
  obtain ⟨_, hget⟩ := getElem?_append_bound_left hget
    (by intro x hx; fin_cases hx <;> simp)
  obtain ⟨_, hget⟩ := getElem?_append_bound_left hget
    (by intro x hx; obtain ⟨y, _, rfl⟩ := List.mem_map.mp hx; simp)
  obtain ⟨_, hget⟩ := getElem?_append_bound_left hget
    (by intro x hx; fin_cases hx <;> simp)
  obtain ⟨_, hget⟩ := getElem?_append_bound_left hget
    (by intro x hx; obtain ⟨y, _, rfl⟩ := List.mem_map.mp hx; simp)
  obtain ⟨k, hik, -⟩ := getElem?_append_bound_right hget (by
    intro x hx
    rcases List.mem_append.mp hx with hx | hx
    · rcases List.mem_append.mp hx with hx | hx
      · rcases List.mem_append.mp hx with hx | hx
        · rcases List.mem_append.mp hx with hx | hx
          · fin_cases hx <;> simp
          · obtain ⟨y, _, rfl⟩ := List.mem_map.mp hx; simp
        · fin_cases hx <;> simp
      · obtain ⟨y, _, rfl⟩ := List.mem_map.mp hx; simp
    · fin_cases hx <;> simp)
  simp only [List.length_append, List.length_map, List.length_cons,
    List.length_nil] at hik
  omega

theorem getElem?_append_extend {α : Type} {l₁ : List α} (l₂ : List α)
    {i : Nat} {a : α} (h : l₁[i]? = some a) : (l₁ ++ l₂)[i]? = some a := by
  rw [List.getElem?_append_left (List.getElem?_eq_some.mp h).1]
  exact h

theorem getElem?_append_of_right {α : Type} (l₁ : List α) {l₂ : List α}
    {k : Nat} {a : α} (h : l₂[k]? = some a) :
    (l₁ ++ l₂)[l₁.length + k]? = some a := by
  rw [List.getElem?_append_right (Nat.le_add_right _ _),
    Nat.add_sub_cancel_left]
  exact h

/-- Every `configureBridge` action sits in the bridge-configuration
prefix of `_create_masters` (positions `< 2 + n hosts`). -/
theorem cm_configureBridge_lt (hosts : List Nat) (i h : Nat)
    (hget : (create_masters_body hosts)[i]? = some (.configureBridge h)) :
    i < 2 + hosts.length := by
  unfold create_masters_body at hget
  obtain ⟨_, hget⟩ := getElem?_append_bound_left hget
    (by intro x hx; fin_cases hx <;> simp)
  obtain ⟨_, hget⟩ := getElem?_append_bound_left hget
    (by intro x hx; obtain ⟨y, _, rfl⟩ := List.mem_map.mp hx; simp)
  obtain ⟨_, hget⟩ := getElem?_append_bound_left hget
    (by intro x hx; fin_cases hx <;> simp)
  obtain ⟨_, hget⟩ := getElem?_append_bound_left hget
    (by intro x hx; obtain ⟨y, _, rfl⟩ := List.mem_map.mp hx; simp)
  obtain ⟨_, hget⟩ := getElem?_append_bound_left hget
    (by intro x hx; fin_cases hx <;> simp)
  obtain ⟨_, hget⟩ := getElem?_append_bound_left hget
    (by intro x hx; obtain ⟨y, _, rfl⟩ := List.mem_map.mp hx; simp)
  obtain ⟨_, hget⟩ := getElem?_append_bound_left hget
    (by intro x hx; obtain ⟨y, _, rfl⟩ := List.mem_map.mp hx; simp)
  obtain ⟨_, hget⟩ := getElem?_append_bound_left hget
    (by intro x hx; fin_cases hx <;> simp)
  obtain ⟨_, hget⟩ := getElem?_append_bound_left hget
    (by intro x hx; obtain ⟨y, _, rfl⟩ := List.mem_map.mp hx; simp)
  obtain ⟨hlt, -⟩ := getElem?_append_bound_left hget
    (by intro x hx; fin_cases hx <;> simp)
  simp only [List.length_append, List.length_map, List.length_cons,
    List.length_nil] at hlt
  omega

/-- The known-state wait occupies the single position `4 + 4·n hosts` of
`_create_masters`. -/
theorem cm_waitKnown_eq (hosts : List Nat) (j : Nat)
    (hget : (create_masters_body hosts)[j]? = some .waitKnownStateMasters) :
    j = 4 + 4 * hosts.length := by
  unfold create_masters_body at hget
  obtain ⟨_, hget⟩ := getElem?_append_bound_left hget
    (by intro x hx; fin_cases hx <;> simp)
  obtain ⟨_, hget⟩ := getElem?_append_bound_left hget
    (by intro x hx; obtain ⟨y, _, rfl⟩ := List.mem_map.mp hx; simp)
  obtain ⟨_, hget⟩ := getElem?_append_bound_left hget
    (by intro x hx; fin_cases hx <;> simp)
  obtain ⟨_, hget⟩ := getElem?_append_bound_left hget
    (by intro x hx; obtain ⟨y, _, rfl⟩ := List.mem_map.mp hx; simp)
  obtain ⟨k, hik, hget⟩ := getElem?_append_bound_right hget (by
    intro x hx
    rcases List.mem_append.mp hx with hx | hx
    · rcases List.mem_append.mp hx with hx | hx
      · rcases List.mem_append.mp hx with hx | hx
        · rcases List.mem_append.mp hx with hx | hx
          · rcases List.mem_append.mp hx with hx | hx
            · rcases List.mem_append.mp hx with hx | hx
              · fin_cases hx <;> simp
              · obtain ⟨y, _, rfl⟩ := List.mem_map.mp hx; simp
            · fin_cases hx <;> simp
          · obtain ⟨y, _, rfl⟩ := List.mem_map.mp hx; simp
        · fin_cases hx <;> simp
      · obtain ⟨y, _, rfl⟩ := List.mem_map.mp hx; simp
    · obtain ⟨y, _, rfl⟩ := List.mem_map.mp hx; simp)
  have hk0 : k = 0 := by
    rcases k with _ | k
    · rfl
    · rw [List.getElem?_cons_succ] at hget
      have hmem := List.getElem?_mem hget
      simp at hmem
  subst hk0
  simp only [List.length_append, List.length_map, List.length_cons,
    List.length_nil] at hik
  omega

/-- Every `ensureLinked` action of `_create_masters` is either part of
the pre-boot bridge linking (positions `< 3 + 2·n hosts`) or part of the
post-install reconnection (positions `≥ 11 + 4·n hosts`). -/
theorem cm_ensureLinked_split (hosts : List Nat) (i h : Nat)
    (hget : (create_masters_body hosts)[i]? = some (.ensureLinked h)) :
    i < 3 + 2 * hosts.length ∨ 11 + 4 * hosts.length ≤ i := by
  unfold create_masters_body at hget
  obtain ⟨_, hget⟩ := getElem?_append_bound_left hget
    (by intro x hx; fin_cases hx <;> simp)
  obtain ⟨_, hget⟩ := getElem?_append_bound_left hget
    (by intro x hx; obtain ⟨y, _, rfl⟩ := List.mem_map.mp hx; simp)
  obtain ⟨_, hget⟩ := getElem?_append_bound_left hget
    (by intro x hx; fin_cases hx <;> simp)
  rcases Nat.lt_or_ge i (((((((([DAction.logInfo "create masters: start",
      DAction.aiEnsureInfraenvCreatedMasters] ++
      hosts.map DAction.configureBridge) ++
      [DAction.setupDhcpEntries "masters"]) ++
      hosts.map DAction.ensureLinked) ++
      [DAction.downloadIsoMasters]) ++
      hosts.map DAction.startMasters) ++
      hosts.map DAction.waitMastersBoot) ++
      [DAction.waitKnownStateMasters, DAction.aiStartUntilSuccess,
        DAction.downloadKubeconfig, DAction.aiWaitCluster,
        DAction.logInfo "updating etc hosts", DAction.updateEtcHosts,
        DAction.joinFutures]).length) with hi | hi
  · rw [List.getElem?_append_left hi] at hget
    obtain ⟨_, hget⟩ := getElem?_append_bound_left hget
      (by intro x hx; fin_cases hx <;> simp)
    obtain ⟨_, hget⟩ := getElem?_append_bound_left hget
      (by intro x hx; obtain ⟨y, _, rfl⟩ := List.mem_map.mp hx; simp)
    obtain ⟨_, hget⟩ := getElem?_append_bound_left hget
      (by intro x hx; obtain ⟨y, _, rfl⟩ := List.mem_map.mp hx; simp)
    obtain ⟨hlt, -⟩ := getElem?_append_bound_left hget
      (by intro x hx; fin_cases hx <;> simp)
    simp only [List.length_append, List.length_map, List.length_cons,
      List.length_nil] at hlt
    omega
  · simp only [List.length_append, List.length_map, List.length_cons,
      List.length_nil] at hi
    omega

/-- Each master-hosting host is linked to the bridge inside the pre-boot
prefix of `_create_masters`. -/
theorem cm_ensureLinked_exists_pre (hosts : List Nat) (h : Nat)
    (hmem : h ∈ hosts) :
    ∃ i, i < 3 + 2 * hosts.length ∧
      (create_masters_body hosts)[i]? = some (.ensureLinked h) := by
  obtain ⟨k, hk⟩ := List.getElem?_of_mem hmem
  have hkn : k < hosts.length := (List.getElem?_eq_some.mp hk).1
  have hM3 : (hosts.map DAction.ensureLinked)[k]? = some (.ensureLinked h) := by
    rw [List.getElem?_map, hk]
    rfl
  have h1 := getElem?_append_of_right
    (([DAction.logInfo "create masters: start",
        DAction.aiEnsureInfraenvCreatedMasters] ++
      hosts.map DAction.configureBridge) ++
      [DAction.setupDhcpEntries "masters"]) hM3
  have h2 := getElem?_append_extend [DAction.downloadIsoMasters] h1
  have h3 := getElem?_append_extend (hosts.map DAction.startMasters) h2
  have h4 := getElem?_append_extend (hosts.map DAction.waitMastersBoot) h3
  have h5 := getElem?_append_extend
    [DAction.waitKnownStateMasters, DAction.aiStartUntilSuccess,
      DAction.downloadKubeconfig, DAction.aiWaitCluster,
      DAction.logInfo "updating etc hosts", DAction.updateEtcHosts,
      DAction.joinFutures] h4
  have h6 := getElem?_append_extend (hosts.map DAction.ensureLinked) h5
  have h7 := getElem?_append_extend [DAction.logInfo "setting password"] h6
  have h8 := getElem?_append_extend (hosts.map DAction.setPasswordMasters) h7
  have h9 := getElem?_append_extend [DAction.dnsmasqUpdate true] h8
  refine ⟨_, ?_, h9⟩
  simp only [List.length_append, List.length_map, List.length_cons,
    List.length_nil]
  omega

/-- Each master-hosting host is relinked in the post-install suffix of
`_create_masters`. -/
theorem cm_ensureLinked_exists_post (hosts : List Nat) (h : Nat)
    (hmem : h ∈ hosts) :
    ∃ i, 11 + 4 * hosts.length ≤ i ∧
      (create_masters_body hosts)[i]? = some (.ensureLinked h) := by
  obtain ⟨k, hk⟩ := List.getElem?_of_mem hmem
  have hM8 : (hosts.map DAction.ensureLinked)[k]? = some (.ensureLinked h) := by
    rw [List.getElem?_map, hk]
    rfl
  have h1 := getElem?_append_of_right
    ((((((([DAction.logInfo "create masters: start",
        DAction.aiEnsureInfraenvCreatedMasters] ++
      hosts.map DAction.configureBridge) ++
      [DAction.setupDhcpEntries "masters"]) ++
      hosts.map DAction.ensureLinked) ++
      [DAction.downloadIsoMasters]) ++
      hosts.map DAction.startMasters) ++
      hosts.map DAction.waitMastersBoot) ++
      [DAction.waitKnownStateMasters, DAction.aiStartUntilSuccess,
        DAction.downloadKubeconfig, DAction.aiWaitCluster,
        DAction.logInfo "updating etc hosts", DAction.updateEtcHosts,
        DAction.joinFutures]) hM8
  have h2 := getElem?_append_extend [DAction.logInfo "setting password"] h1
  have h3 := getElem?_append_extend (hosts.map DAction.setPasswordMasters) h2
  have h4 := getElem?_append_extend [DAction.dnsmasqUpdate true] h3
  refine ⟨_, ?_, h4⟩
  simp only [List.length_append, List.length_map, List.length_cons,
    List.length_nil]
  omega

/-- **C6**.  In every (guard-passing) execution of `_create_masters`,
every host's local bridge configuration — and a linking of the host to
it — strictly precedes every master boot start, and the post-install
relinking of every host to the network strictly follows the known-state
wait; moreover *every* `ensure_linked_to_network` call either precedes
all boots (the pre-boot bridge link) or follows the known-state wait
(the reconnection) — never in between. -/
theorem create_masters_ordering (cc : CConfig) (hk : cc.kind = "openshift")
    (hm : cc.masters ≠ []) (hs : MASTERS_STEP ∈ cc.steps) :
    create_masters cc = create_masters_body cc.hostsWithMasters ∧
      (∀ (i j h h' : Nat),
        (create_masters cc)[i]? = some (DAction.configureBridge h) →
        (create_masters cc)[j]? = some (DAction.startMasters h') → i < j) ∧
      (∀ h ∈ cc.hostsWithMasters, ∃ i : Nat,
        (create_masters cc)[i]? = some (DAction.ensureLinked h) ∧
          ∀ (j h' : Nat),
            (create_masters cc)[j]? = some (DAction.startMasters h') → i < j) ∧
      (∀ h ∈ cc.hostsWithMasters, ∃ i : Nat,
        (create_masters cc)[i]? = some (DAction.ensureLinked h) ∧
          ∀ j : Nat,
            (create_masters cc)[j]? = some DAction.waitKnownStateMasters → j < i) ∧
      (∀ (i h : Nat), (create_masters cc)[i]? = some (DAction.ensureLinked h) →
        (∀ (j h' : Nat),
          (create_masters cc)[j]? = some (DAction.startMasters h') → i < j) ∨
          (∀ j : Nat,
            (create_masters cc)[j]? = some DAction.waitKnownStateMasters → j < i)) := by
  have htr : create_masters cc = create_masters_body cc.hostsWithMasters := by
    unfold create_masters
    rw [if_neg (fun h => h hk), if_neg hm, if_neg (not_not_intro hs)]
  refine ⟨htr, ?_, ?_, ?_, ?_⟩
  · intro i j h h' hi hj
    rw [htr] at hi hj
    have h1 := cm_configureBridge_lt cc.hostsWithMasters i h hi
    have h2 := cm_startMasters_ge cc.hostsWithMasters j h' hj
    omega
  · intro h hmem
    obtain ⟨i, hlt, hget⟩ :=
      cm_ensureLinked_exists_pre cc.hostsWithMasters h hmem
    refine ⟨i, by rw [htr]; exact hget, ?_⟩
    intro j h' hj
    rw [htr] at hj
    have h2 := cm_startMasters_ge cc.hostsWithMasters j h' hj
    omega
  · intro h hmem
    obtain ⟨i, hge, hget⟩ :=
      cm_ensureLinked_exists_post cc.hostsWithMasters h hmem
    refine ⟨i, by rw [htr]; exact hget, ?_⟩
    intro j hj
    rw [htr] at hj
    have h2 := cm_waitKnown_eq cc.hostsWithMasters j hj
    omega
  · intro i h hi
    rw [htr] at hi
    rcases cm_ensureLinked_split cc.hostsWithMasters i h hi with hlt | hge
    · left
      intro j h' hj
      rw [htr] at hj
      have h2 := cm_startMasters_ge cc.hostsWithMasters j h' hj
      omega
    · right
      intro j hj
      rw [htr] at hj
      have h2 := cm_waitKnown_eq cc.hostsWithMasters j hj
      omega

/-- Concrete configuration for the C6 witness: two masters on hosts 5
and 9, masters step selected. -/
def cfgC6 : CConfig :=
  ⟨"openshift", ["m1", "m2"], [], ["masters"], [5, 9], [], [], "x", [], []⟩

/-- **C6** (witness). -/
theorem create_masters_ordering_witness :
    create_masters cfgC6 = create_masters_body cfgC6.hostsWithMasters :=
  (create_masters_ordering cfgC6 (by decide) (by decide) (by decide)).1

end Cda
